import Mathlib

/-!
HCIDESIGN: focus/break timer and dictation pipeline of `assets/js/main.js`.

A shallow embedding of the settings store and the two stateful parts of
`assets/js/main.js`:

* the general settings record (`defaults`, `loadSettings`, `saveSettings`);
* the focus timer (`loadFocusSettings`, `saveFocusSettings`, `formatTime`,
  `switchPhase`, `startTimer`, `stopTimer`, the click handlers and `initFocus`);
* the voice-to-text pipeline (`startRecognition`, `stopRecognition`, the
  `recognition.on*` handlers and `insertRecognizedText`).

Modelling conventions.

* A JavaScript string is a list of characters (`JSString`), each element
  standing for one code unit; `slice`, `length`, `+` and `trim` act on it
  position by position.
* A JavaScript number that holds a count of minutes or seconds is an `Int`;
  `NaN` (only produced by `parseInt`) is `none`. A JavaScript number is a
  double, which holds every integer below 2^53 exactly, so the arithmetic of the
  model is that of the script as long as the values stay below 2^53
  (`exactLimit`); theorems that range over numeric inputs carry that bound.
* `localStorage` is a record with one slot per key used by the script. Reads
  and writes succeed (the `catch` branches for a throwing store are not taken);
  a slot holds the parsed JSON value.
* Asynchronous callbacks (interval ticks, recognition events) are functions on
  the state; the host delivers them one at a time.
* Writes to DOM sinks that the script never reads back (timer display, button
  labels and classes, the audio cue, the settings panel) are left out; the
  caption overlay, the focused element and the chat surfaces are modelled.
-/

namespace HCIDesign

/-! ## Strings and numbers -/

/-- A JavaScript string, as the list of its code units. A character above
U+FFFF, which JavaScript stores as two code units, is one element here, so
lengths and positions are those of the script for strings without such
characters. -/
abbrev JSString := List Char

/-- The characters removed by `String.prototype.trim` and skipped by `parseInt`:
ECMAScript `WhiteSpace` and `LineTerminator`. -/
def isJSWhiteSpace (c : Char) : Bool :=
  let n := c.toNat
  n == 0x09 || n == 0x0A || n == 0x0B || n == 0x0C || n == 0x0D || n == 0x20 ||
  n == 0xA0 || n == 0x1680 || (0x2000 ≤ n && n ≤ 0x200A) || n == 0x2028 ||
  n == 0x2029 || n == 0x202F || n == 0x205F || n == 0x3000 || n == 0xFEFF

/-- `s.trim()`. -/
def jsTrim (s : JSString) : JSString :=
  ((s.dropWhile isJSWhiteSpace).reverse.dropWhile isJSWhiteSpace).reverse

/-- The value of a run of decimal digits, most significant first. -/
def digitsValue (ds : List Char) : Nat :=
  ds.foldl (fun acc c => 10 * acc + (c.toNat - 48)) 0

/-- `parseInt(s, 10)`: skip leading white space, read an optional sign, then
the longest run of decimal digits; `none` is `NaN` (no digit found). The result
is the integer the digits denote; `parseInt` returns that integer as long as it
is below 2^53 in magnitude (above, it returns the nearest double, and
`Infinity` from 309 digits on). -/
def parseInt10 (s : JSString) : Option Int :=
  let s1 := s.dropWhile isJSWhiteSpace
  let signed : Bool × JSString :=
    match s1 with
    | '-' :: r => (true, r)
    | '+' :: r => (false, r)
    | _ => (false, s1)
  let z := signed.2.takeWhile Char.isDigit
  if z = [] then none
  else
    let n : Int := (digitsValue z : Int)
    some (if signed.1 then -n else n)

/-- `x || d` for a number `x` read from a parsed record: `0` is falsy. -/
def orDefault (x : Int) (d : Int) : Int :=
  if x = 0 then d else x

/-- `x || d` for the result of `parseInt`: `NaN` and `0` are falsy. -/
def parsedOrDefault (x : Option Int) (d : Int) : Int :=
  match x with
  | none => d
  | some n => orDefault n d

/-! ## localStorage -/

/-- A JSON value held in a settings record. -/
inductive JSVal where
  | null
  | bool (b : Bool)
  | num (n : Int)
  | str (s : JSString)
  deriving DecidableEq, Repr

/-- A plain object: its own enumerable keys, in insertion order. -/
abbrev Obj := List (JSString × JSVal)

/-- `o[k]`; `none` is `undefined`. -/
def Obj.get (o : Obj) (k : JSString) : Option JSVal :=
  (o.find? (fun kv => kv.1 == k)).map (fun kv => kv.2)

/-- `o[k] = v`: overwrite in place when the key exists, else add it last. -/
def Obj.set (o : Obj) (k : JSString) (v : JSVal) : Obj :=
  if o.any (fun kv => kv.1 == k) then
    o.map (fun kv => if kv.1 == k then (k, v) else kv)
  else o ++ [(k, v)]

/-- `Object.assign(target, src)`. -/
def Obj.assign (target src : Obj) : Obj :=
  src.foldl (fun acc kv => acc.set kv.1 kv.2) target

/-- JavaScript truthiness of a looked-up property. -/
def truthy (v : Option JSVal) : Bool :=
  match v with
  | none => false
  | some .null => false
  | some (.bool b) => b
  | some (.num n) => n != 0
  | some (.str s) => !s.isEmpty

/-- What `localStorage.getItem(SETTINGS_KEY)` holds: nothing, text that
`JSON.parse` rejects, or the text of an object. -/
inductive StoredItem where
  | absent
  | malformed
  | object (o : Obj)
  deriving DecidableEq, Repr

/-- The record stored under `FOCUS_KEY`. -/
structure FocusSettings where
  focusMinutes : Int
  breakMinutes : Int
  deriving DecidableEq, Repr

/-- The argument of `saveFocusSettings`: the keys it carries. -/
structure FocusUpdate where
  focusMinutes : Option Int
  breakMinutes : Option Int
  deriving DecidableEq, Repr

/-- The two `localStorage` slots used by the script. -/
structure LocalStorage where
  /-- Slot `vibe_settings_v1`. -/
  settings : StoredItem
  /-- Slot `vibe_focus_settings_v1`; `none` when nothing is stored. -/
  focus : Option FocusSettings
  deriving DecidableEq, Repr

/-- The constant `defaults`. -/
def defaults : Obj :=
  [ ("displayName".toList, .str "Alex Johnson".toList),
    ("pronouns".toList, .str "they/them".toList),
    ("bio".toList, .str []),
    ("theme".toList, .str "pastel".toList),
    ("captions".toList, .bool true),
    ("fontSize".toList, .str "medium".toList),
    ("dyslexic".toList, .bool false),
    ("avatar".toList, .str []) ]

/-- `loadSettings()`. -/
def loadSettings (ls : LocalStorage) : Obj :=
  match ls.settings with
  | .absent => Obj.assign (Obj.assign [] defaults) []
  | .object o => Obj.assign (Obj.assign [] defaults) o
  | .malformed => Obj.assign [] defaults

/-- `saveSettings(s)`. -/
def saveSettings (s : Obj) (ls : LocalStorage) : LocalStorage :=
  let cur := loadSettings ls
  let merged := Obj.assign (Obj.assign [] cur) s
  { ls with settings := .object merged }

/-- `loadFocusSettings()`. -/
def loadFocusSettings (ls : LocalStorage) : FocusSettings :=
  match ls.focus with
  | none => { focusMinutes := 25, breakMinutes := 5 }
  | some fs => fs

/-- `saveFocusSettings(s)`: `Object.assign({}, cur, s)` written back. -/
def saveFocusSettings (s : FocusUpdate) (ls : LocalStorage) : LocalStorage :=
  let cur := loadFocusSettings ls
  let merged : FocusSettings :=
    { focusMinutes := s.focusMinutes.getD cur.focusMinutes,
      breakMinutes := s.breakMinutes.getD cur.breakMinutes }
  { ls with focus := some merged }

/-! ## Focus timer -/

/-- The value of `currentPhase`. -/
inductive Phase where
  | focus
  | break
  deriving DecidableEq, Repr

/-- The other phase: `currentPhase === 'focus' ? 'break' : 'focus'`. -/
def Phase.flip : Phase → Phase
  | .focus => .break
  | .break => .focus

/-- The timer variables of the script together with the host state they
depend on. -/
structure Timer where
  storage : LocalStorage
  /-- Number of interval callbacks registered with `setInterval` and not
  cleared. -/
  liveIntervals : Nat
  /-- Whether `focusTimerInterval` holds the id of a registered interval (as
  opposed to `null`). -/
  focusTimerInterval : Bool
  remainingSeconds : Int
  currentPhase : Phase
  timerRunning : Bool
  deriving DecidableEq, Repr

/-- The expression `(currentPhase === 'focus' ? (fs.focusMinutes || 25) :
(fs.breakMinutes || 5)) * 60`. -/
def phaseSeconds (fs : FocusSettings) (p : Phase) : Int :=
  (match p with
   | .focus => orDefault fs.focusMinutes 25
   | .break => orDefault fs.breakMinutes 5) * 60

/-- `switchPhase(to)`, with `toPhase` for the argument `to`. -/
def switchPhase (toPhase : Option Phase) (t : Timer) : Timer :=
  let p := match toPhase with
    | some q => q
    | none => t.currentPhase.flip
  let fs := loadFocusSettings t.storage
  { t with currentPhase := p, remainingSeconds := phaseSeconds fs p }

/-- The body of the callback passed to `setInterval` in `startTimer`. -/
def intervalCallback (t : Timer) : Timer :=
  if t.remainingSeconds ≤ 0 then switchPhase none t
  else { t with remainingSeconds := t.remainingSeconds - 1 }

/-- One tick of the host clock: the callback runs when an interval is
registered, and nothing happens otherwise. -/
def tick (t : Timer) : Timer :=
  if 0 < t.liveIntervals then intervalCallback t else t

/-- `startTimer()`. -/
def startTimer (t : Timer) : Timer :=
  if t.timerRunning then t
  else { t with timerRunning := true, focusTimerInterval := true,
                liveIntervals := t.liveIntervals + 1 }

/-- `stopTimer(resetToPhase)`. -/
def stopTimer (resetToPhase : Option Phase) (t : Timer) : Timer :=
  let t1 : Timer :=
    { t with liveIntervals := if t.focusTimerInterval then t.liveIntervals - 1
                              else t.liveIntervals,
             focusTimerInterval := false, timerRunning := false }
  match resetToPhase with
  | some p =>
      let fs := loadFocusSettings t1.storage
      { t1 with currentPhase := p, remainingSeconds := phaseSeconds fs p }
  | none => t1

/-- The click handler of `saveFocusSettingsBtn`, given the texts of the two
input fields. -/
def saveFocusSettingsClick (focusInput breakInput : JSString) (t : Timer) : Timer :=
  let f := max 1 (parsedOrDefault (parseInt10 focusInput) 25)
  let b := max 1 (parsedOrDefault (parseInt10 breakInput) 5)
  let st1 := saveFocusSettings { focusMinutes := some f, breakMinutes := some b } t.storage
  let st2 := saveSettings [] st1
  { t with storage := st2, currentPhase := .focus, remainingSeconds := f * 60 }

/-- The click handler of `focusStartBtn`. -/
def focusStartClick (t : Timer) : Timer :=
  if !t.timerRunning then startTimer t else stopTimer none t

/-- The click handler of `focusStopBtn`. -/
def focusStopClick (t : Timer) : Timer :=
  stopTimer (some .focus) t

/-- The timer state after the declarations and `initFocus` have run on page
load. -/
def initFocus (ls : LocalStorage) : Timer :=
  let fs := loadFocusSettings ls
  { storage := ls, liveIntervals := 0, focusTimerInterval := false,
    remainingSeconds := orDefault fs.focusMinutes 25 * 60,
    currentPhase := .focus, timerRunning := false }

/-- `n` ticks in a row. -/
def ticks : Nat → Timer → Timer
  | 0, t => t
  | n + 1, t => ticks n (tick t)

/-! ## Page, caption overlay and text insertion -/

/-- The properties of `document.activeElement` that `insertRecognizedText`
reads and writes, and its text content, which the script leaves alone. A
property that is `undefined` or `null` is `none`. -/
structure Element where
  tagName : JSString
  isContentEditable : Bool
  /-- The property `value`: the text held by an input or a textarea; on any
  other element an ordinary property, `undefined` until assigned. -/
  value : Option JSString
  /-- The text content of the element, which is what a content-editable
  element shows and edits. -/
  textContent : JSString
  selectionStart : Option Nat
  selectionEnd : Option Nat
  /-- Whether assigning to `selectionStart` and `selectionEnd` succeeds; when it
  throws, the `try`/`catch` around the assignment swallows the exception. -/
  selectionSettable : Bool
  deriving DecidableEq, Repr

/-- A child node of a chat surface. -/
structure EntryNode where
  className : JSString
  textContent : JSString
  deriving DecidableEq, Repr

/-- An element matched by one of the chat selectors. -/
structure ChatSurface where
  children : List EntryNode
  /-- Whether `scrollTop` equals `scrollHeight`. -/
  scrolledToEnd : Bool
  deriving DecidableEq, Repr

/-- The element with id `vibe-captions`. -/
structure Overlay where
  display : JSString
  textContent : JSString
  deriving DecidableEq, Repr

/-- The part of the document the pipeline touches. -/
structure Page where
  activeElement : Option Element
  /-- Result of `document.querySelector('#chatBox')`. -/
  chatBox : Option ChatSurface
  /-- Result of `document.querySelector('#chillChat')`. -/
  chillChat : Option ChatSurface
  /-- Result of `document.querySelector('#chat')`. -/
  chat : Option ChatSurface
  /-- Result of `document.getElementById('vibe-captions')`. -/
  captions : Option Overlay
  deriving DecidableEq, Repr

/-- The element `ensureCaptionsOverlay()` returns: the existing one, or a new
hidden, empty one. -/
def ensureCaptionsOverlay (p : Page) : Overlay :=
  match p.captions with
  | some el => el
  | none => { display := "none".toList, textContent := [] }

/-- `showCaptions(on)`, with `visible` for the argument `on`. -/
def showCaptions (visible : Bool) (p : Page) : Page :=
  let el := ensureCaptionsOverlay p
  let shown : Overlay := { el with display := if visible then "block".toList else "none".toList }
  { p with captions := some shown }

/-- The test `active.tagName==='INPUT' || active.tagName==='TEXTAREA' ||
active.isContentEditable`. -/
def isEditable (active : Element) : Bool :=
  active.tagName == "INPUT".toList || active.tagName == "TEXTAREA".toList ||
    active.isContentEditable

/-- The first branch of `insertRecognizedText`: splice `text` into the value
of the focused element and move the caret behind it. The assignment to `value`
stores the string as given, which is what a text input, a textarea and an
element without a native `value` do (an input of another type, such as a number
input, may store a sanitized string instead). -/
def insertIntoElement (text : JSString) (active : Element) : Element :=
  let start := active.selectionStart.getD 0
  let stop := match active.selectionEnd with
    | some e => if e = 0 then start else e
    | none => start
  let val := active.value.getD []
  let newVal := val.take start ++ text ++ val.drop stop
  let caret := start + text.length
  if active.selectionSettable then
    { active with value := some newVal, selectionStart := some caret,
                  selectionEnd := some caret }
  else { active with value := some newVal }

/-- The body of the chat loop for a surface that exists: append a
`caption-entry` node holding `text` and scroll to the end. -/
def appendEntry (text : JSString) (el : ChatSurface) : ChatSurface :=
  { children := el.children ++ [{ className := "caption-entry".toList, textContent := text }],
    scrolledToEnd := true }

/-- `insertRecognizedText(text)`. -/
def insertRecognizedText (text : JSString) (p : Page) : Page :=
  let fallback : Page :=
    match p.chatBox with
    | some el => { p with chatBox := some (appendEntry text el) }
    | none =>
      match p.chillChat with
      | some el => { p with chillChat := some (appendEntry text el) }
      | none =>
        match p.chat with
        | some el => { p with chat := some (appendEntry text el) }
        | none =>
          let cap := ensureCaptionsOverlay p
          let shown : Overlay := { cap with display := "block".toList, textContent := text }
          { p with captions := some shown }
  match p.activeElement with
  | some active =>
      if isEditable active then
        { p with activeElement := some (insertIntoElement text active) }
      else fallback
  | none => fallback

/-! ## Voice-to-text pipeline -/

/-- One entry of `e.results`: `res[0].transcript` and `res.isFinal`. -/
structure SpeechResult where
  transcript : JSString
  isFinal : Bool
  deriving DecidableEq, Repr

/-- A method call made on the recognition object. -/
inductive AdapterCall where
  | start
  | stop
  deriving DecidableEq, Repr

/-- The variables of the voice-to-text code together with the host state they
depend on. -/
structure Pipeline where
  storage : LocalStorage
  page : Page
  /-- Whether the browser offers `SpeechRecognition`. -/
  speechSupported : Bool
  /-- Whether `recognition` holds an object (as opposed to `null`). -/
  recognition : Bool
  recognizing : Bool
  /-- The variable `interim` captured by the handlers. -/
  interim : JSString
  /-- Trace of the `start()` and `stop()` calls made on `recognition`. -/
  adapterCalls : List AdapterCall
  /-- Trace of the arguments of the `insertRecognizedText` calls made by
  `onresult`. -/
  dispatchLog : List JSString
  /-- Number of `alert` notices shown. -/
  alerts : Nat
  deriving DecidableEq, Repr

/-- The loop of `recognition.onresult`: the pair (`final`, `interim`) after
all results have been visited, starting from two empty strings. -/
def collectResults (results : List SpeechResult) : JSString × JSString :=
  results.foldl
    (fun acc res =>
      if res.isFinal then (acc.1 ++ res.transcript ++ [' '], acc.2)
      else (acc.1, acc.2 ++ res.transcript ++ [' ']))
    ([], [])

/-- The handler `recognition.onresult`, given `e.results`. -/
def onresult (results : List SpeechResult) (s : Pipeline) : Pipeline :=
  let acc := collectResults results
  let final := acc.1
  let interim := acc.2
  let captionsEl := ensureCaptionsOverlay s.page
  let rendered : Overlay := { captionsEl with textContent := final ++ interim }
  let s1 : Pipeline :=
    { s with interim := interim, page := { s.page with captions := some rendered } }
  if !final.isEmpty && !(jsTrim final).isEmpty then
    { s1 with page := insertRecognizedText (jsTrim final) s1.page,
              dispatchLog := s1.dispatchLog ++ [jsTrim final] }
  else s1

/-- The handler `recognition.onstart`. -/
def onstart (s : Pipeline) : Pipeline :=
  let captionsEl := ensureCaptionsOverlay s.page
  let listening : Overlay :=
    { captionsEl with display := "block".toList, textContent := "Listening...".toList }
  { s with recognizing := true, page := { s.page with captions := some listening } }

/-- The handler `recognition.onend`. -/
def onend (s : Pipeline) : Pipeline :=
  let captionsEl := ensureCaptionsOverlay s.page
  let cleared : Overlay := { captionsEl with textContent := [] }
  let el : Overlay :=
    if !truthy ((loadSettings s.storage).get "captions".toList) then
      { cleared with display := "none".toList }
    else cleared
  { s with recognizing := false, page := { s.page with captions := some el } }

/-- The handler `recognition.onerror`: it only logs. -/
def onerror (s : Pipeline) : Pipeline := s

/-- `startRecognition(button)`. -/
def startRecognition (s : Pipeline) : Pipeline :=
  let recognition := s.recognition || s.speechSupported
  if !recognition then { s with alerts := s.alerts + 1 }
  else
    let captionsEl := ensureCaptionsOverlay s.page
    { s with recognition := true, interim := [],
             page := { s.page with captions := some captionsEl },
             adapterCalls := s.adapterCalls ++ [.start] }

/-- `stopRecognition()`. -/
def stopRecognition (s : Pipeline) : Pipeline :=
  if s.recognition && s.recognizing then
    { s with adapterCalls := s.adapterCalls ++ [.stop] }
  else s

/-- The click handler of the `voiceToText` button. -/
def voiceToTextClick (s : Pipeline) : Pipeline :=
  if !s.recognizing then startRecognition s else stopRecognition s

/-- The pipeline after a list of result batches has been handled, oldest
first. -/
def onresults : List (List SpeechResult) → Pipeline → Pipeline
  | [], s => s
  | batch :: rest, s => onresults rest (onresult batch s)

/-! ## Specification vocabulary for the timer -/

/-- The persisted duration, in minutes, of a phase: the stored value, or the
built-in default (25 for focus, 5 for break) when nothing is stored. -/
def persistedDuration (ls : LocalStorage) (p : Phase) : Int :=
  match ls.focus, p with
  | some fs, .focus => fs.focusMinutes
  | some fs, .break => fs.breakMinutes
  | none, .focus => 25
  | none, .break => 5

/-- The stored durations, when present, are at least one minute each. -/
def StoreValid (ls : LocalStorage) : Prop :=
  match ls.focus with
  | none => True
  | some fs => 1 ≤ fs.focusMinutes ∧ 1 ≤ fs.breakMinutes

instance (ls : LocalStorage) : Decidable (StoreValid ls) := by
  unfold StoreValid
  split <;> infer_instance

/-- The run flag, the interval handle and the host's interval table agree:
the timer runs exactly when the handle is set, and then exactly one interval
is registered. -/
def Timer.Consistent (t : Timer) : Prop :=
  t.timerRunning = t.focusTimerInterval ∧
    t.liveIntervals = (if t.focusTimerInterval then 1 else 0)

instance (t : Timer) : Decidable t.Consistent := by
  unfold Timer.Consistent
  infer_instance

/-- An operation on the timer: `start()`, one tick, `stop(resetPhase?)`, or a
reconfiguration with the texts of the two input fields. -/
inductive TimerOp where
  | start
  | tick
  | stop (resetToPhase : Option Phase)
  | reconfigure (focusInput breakInput : JSString)
  deriving DecidableEq, Repr

/-- The effect of one operation. -/
def TimerOp.apply : TimerOp → Timer → Timer
  | .start, t => startTimer t
  | .tick, t => HCIDesign.tick t
  | .stop r, t => stopTimer r t
  | .reconfigure f b, t => saveFocusSettingsClick f b t

/-- The effect of a list of operations, oldest first. -/
def runOps : List TimerOp → Timer → Timer
  | [], t => t
  | op :: rest, t => runOps rest (op.apply t)

/-- Tick number `k` (counted from 1) changes the phase. -/
def switchesAt (t : Timer) (k : Nat) : Prop :=
  (ticks k t).currentPhase ≠ (ticks (k - 1) t).currentPhase

instance (t : Timer) (k : Nat) : Decidable (switchesAt t k) := by
  unfold switchesAt
  infer_instance

/-- A store that holds 10 and 10 minutes and no general settings. -/
def sampleStorage : LocalStorage :=
  { settings := .absent, focus := some { focusMinutes := 10, breakMinutes := 10 } }

/-- The running timer obtained by `start()` right after page load. -/
def sampleRunning : Timer :=
  startTimer (initFocus sampleStorage)

/-- The running timer in break phase with ten seconds left. -/
def sampleBreak : Timer :=
  { sampleRunning with currentPhase := .break, remainingSeconds := 10 }

/-! ## Specification vocabulary for the pipeline -/

/-- The destination of a dispatched text. -/
inductive Sink where
  | activeInput
  | chatSurface
  | captionOverlay
  deriving DecidableEq, Repr

/-- Whether a focused element exists that is an input, a textarea or
content-editable. -/
def focusedEditable (p : Page) : Bool :=
  match p.activeElement with
  | some el => isEditable el
  | none => false

/-- Whether one of the known chat surfaces exists in the page. -/
def hasChatSurface (p : Page) : Bool :=
  p.chatBox.isSome || p.chillChat.isSome || p.chat.isSome

/-- The sink resolved in priority order: the focused editable element, else a
chat surface, else the caption overlay. -/
def targetSink (p : Page) : Sink :=
  if focusedEditable p then .activeInput
  else if hasChatSurface p then .chatSurface
  else .captionOverlay

/-- The text shown by the caption surface (empty when the overlay does not
exist). -/
def captionText (s : Pipeline) : JSString :=
  match s.page.captions with
  | some el => el.textContent
  | none => []

/-- The transcripts of the results flagged final, in order. -/
def finalFragments (results : List SpeechResult) : List JSString :=
  (results.filter (fun r => r.isFinal)).map (fun r => r.transcript)

/-- The transcripts of the results not flagged final, in order. -/
def interimFragments (results : List SpeechResult) : List JSString :=
  (results.filter (fun r => !r.isFinal)).map (fun r => r.transcript)

/-- The spec's `accumulatedFinalText`: the final fragments joined with single
spaces between them. -/
def specAccumulatedFinalText (results : List SpeechResult) : JSString :=
  List.intercalate [' '] (finalFragments results)

/-- The spec's `interimText`: the interim fragments concatenated. -/
def specInterimText (results : List SpeechResult) : JSString :=
  (interimFragments results).flatten

/-- Each fragment followed by one space, concatenated. -/
def spaced (fragments : List JSString) : JSString :=
  (fragments.map (fun f => f ++ [' '])).flatten

/-- The dispatch a batch gives rise to: its trimmed final text when that is
not empty. -/
def batchDispatch (results : List SpeechResult) : List JSString :=
  if jsTrim (spaced (finalFragments results)) = [] then []
  else [jsTrim (spaced (finalFragments results))]

/-- A page with nothing focused, no chat surface and no overlay yet. -/
def samplePage : Page :=
  { activeElement := none, chatBox := none, chillChat := none, chat := none,
    captions := none }

/-- A text input holding `abcdef` with `cd` selected. -/
def sampleInput : Element :=
  { tagName := "INPUT".toList, isContentEditable := false, value := some "abcdef".toList,
    textContent := [], selectionStart := some 2, selectionEnd := some 4,
    selectionSettable := true }

/-- An empty chat surface. -/
def sampleChat : ChatSurface :=
  { children := [], scrolledToEnd := false }

/-- The idle pipeline on the sample page, in a browser with speech support. -/
def samplePipeline : Pipeline :=
  { storage := sampleStorage, page := samplePage, speechSupported := true,
    recognition := false, recognizing := false, interim := [], adapterCalls := [],
    dispatchLog := [], alerts := 0 }

/-- The sample pipeline once the button was clicked and the start event was
delivered. -/
def sampleListening : Pipeline :=
  onstart (voiceToTextClick samplePipeline)

/-- The listening sample pipeline with the sample input focused. -/
def sampleListeningFocused : Pipeline :=
  { sampleListening with
      page := { sampleListening.page with activeElement := some sampleInput } }

/-- A batch with the final fragment `hello` and the interim fragment `wor`. -/
def sampleBatch : List SpeechResult :=
  [{ transcript := "hello".toList, isFinal := true },
   { transcript := "wor".toList, isFinal := false }]

/-- The page after `captionsEl.textContent = text`, the overlay being the one
`ensureCaptionsOverlay` returns. -/
def withCaptionText (text : JSString) (p : Page) : Page :=
  let el := ensureCaptionsOverlay p
  let rendered : Overlay := { el with textContent := text }
  { p with captions := some rendered }

/-! ## Time formatting -/

/-- `String(n)` for an integer `n`, in plain decimal digits: this is what
`String` gives while `n` is below 10^21 in magnitude (from there on it switches
to exponent form). -/
def jsNumberToString (n : Int) : JSString :=
  if n < 0 then '-' :: (toString n.natAbs).toList else (toString n.toNat).toList

/-- `s.padStart(targetLength, c)` for a one-character pad string. -/
def padStart (targetLength : Nat) (c : Char) (s : JSString) : JSString :=
  List.replicate (targetLength - s.length) c ++ s

/-- `formatTime(sec)`: `Math.floor(sec/60)` and `sec % 60`, each converted to a
string and padded to two characters, with a colon between them. The quotient is
the exact one, which is what the division of doubles followed by `Math.floor`
gives while `sec` is below 2^53 in magnitude. -/
def formatTime (sec : Int) : JSString :=
  let m := Int.fdiv sec 60
  let s := Int.tmod sec 60
  padStart 2 '0' (jsNumberToString m) ++ [':'] ++ padStart 2 '0' (jsNumberToString s)

/-! ## Specification vocabulary for formatting, settings and insertion -/

/-- A number below 100 written as exactly two decimal digits. -/
def twoDigits (k : Nat) : JSString :=
  [Nat.digitChar (k / 10), Nat.digitChar (k % 10)]

/-- A number written in decimal and left-padded with zeros to at least two
digits. -/
def zeroPadded (k : Nat) : JSString :=
  if k < 10 then ['0', Nat.digitChar k] else (toString k).toList

/-- The spec's rendering of a number of seconds: padded minutes, a colon, and
two-digit seconds. -/
def specFormatTime (sec : Nat) : JSString :=
  zeroPadded (sec / 60) ++ [':'] ++ twoDigits (sec % 60)

/-- The keys of a record, in order. -/
def Obj.keys (o : Obj) : List JSString :=
  o.map (fun kv => kv.1)

/-- The keys of the stored general-settings record; none when nothing usable
is stored. -/
def storedKeys (ls : LocalStorage) : List JSString :=
  match ls.settings with
  | .object o => o.keys
  | .absent => []
  | .malformed => []

/-- The record `saveSettings(s)` writes. -/
def persistedSettings (s : Obj) (ls : LocalStorage) : Obj :=
  match (saveSettings s ls).settings with
  | .object o => o
  | .absent => []
  | .malformed => []

/-- A store holding an older record with a key that is no longer a default. -/
def sampleLegacyStorage : LocalStorage :=
  { settings := .object [("theme".toList, .str "dark".toList), ("legacy".toList, .num 1)],
    focus := none }

/-- The persisted captions-enabled preference, as `loadSettings().captions`
is tested. -/
def captionsEnabled (ls : LocalStorage) : Bool :=
  truthy ((loadSettings ls).get "captions".toList)

/-- The `display` style of the caption overlay. -/
def overlayDisplay (p : Page) : JSString :=
  (ensureCaptionsOverlay p).display

/-- The text a user sees in an element: the `value` of an input or a textarea,
the text content of any other element. -/
def Element.text (el : Element) : JSString :=
  if el.tagName = "INPUT".toList ∨ el.tagName = "TEXTAREA".toList then el.value.getD []
  else el.textContent

/-- A focused content-editable `div` showing `abcdef`. It has no `value` and no
`selectionStart` or `selectionEnd` property. -/
def sampleEditableDiv : Element :=
  { tagName := "DIV".toList, isContentEditable := true, value := none,
    textContent := "abcdef".toList, selectionStart := none, selectionEnd := none,
    selectionSettable := true }

/-- The sample page with the content-editable `div` focused. -/
def sampleEditablePage : Page :=
  { samplePage with activeElement := some sampleEditableDiv }

/-- A stopped timer in its break phase with 500 seconds left, the store holding
1 minute of focus and 10 minutes of break. -/
def samplePausedBreak : Timer :=
  { storage := { settings := .absent, focus := some { focusMinutes := 1, breakMinutes := 10 } },
    liveIntervals := 0, focusTimerInterval := false, remainingSeconds := 500,
    currentPhase := .break, timerRunning := false }

/-! ## Specification vocabulary: exact numbers, page load and the events of a page -/

/-- The number 2^53: every integer below it is a double, so sums and products
of integers that stay below it are computed exactly by the script. -/
def exactLimit : Int := 9007199254740992

/-- The text of an input field reads as a number of minutes whose count of
seconds stays below 2^53 (or as no number at all). -/
def readsSafe (s : JSString) : Prop :=
  match parseInt10 s with
  | some n => 60 * n < exactLimit
  | none => True

instance (s : JSString) : Decidable (readsSafe s) := by
  unfold readsSafe
  split <;> infer_instance

/-- The pipeline right after the `DOMContentLoaded` handler has run on a page
`p` with store `ls`: `showCaptions(!!s.captions)` has been applied and the
recognition variables hold their initial values. -/
def pageLoad (ls : LocalStorage) (p : Page) (speechSupported : Bool) : Pipeline :=
  { storage := ls, page := showCaptions (captionsEnabled ls) p,
    speechSupported := speechSupported, recognition := false, recognizing := false,
    interim := [], adapterCalls := [], dispatchLog := [], alerts := 0 }

/-- The click handler of the `toggleCaptions` button. -/
def toggleCaptionsClick (s : Pipeline) : Pipeline :=
  let cur := loadSettings s.storage
  let next := !truthy (cur.get "captions".toList)
  { s with storage := saveSettings [("captions".toList, .bool next)] s.storage,
           page := showCaptions next s.page }

/-- The click handlers of the `toggleContrast` and `toggleTheme` buttons, as
far as the store goes: `saveSettings({theme: name})`. -/
def themeClick (name : JSString) (s : Pipeline) : Pipeline :=
  { s with storage := saveSettings [("theme".toList, .str name)] s.storage }

/-- The effect on the store of the click handler of `saveFocusSettingsBtn` with
the durations `f` and `b`: `saveFocusSettings` followed by `saveSettings({})`. -/
def focusSettingsSaved (f b : Int) (s : Pipeline) : Pipeline :=
  let st1 := saveFocusSettings { focusMinutes := some f, breakMinutes := some b } s.storage
  { s with storage := saveSettings [] st1 }

/-- An event on a loaded page that touches the store, the overlay or the
recognition variables: a click on one of the buttons, a recognition event, or
a change of the rest of the document (the user moves the focus or edits a
field, a chat surface gets other content). -/
inductive PageEvent where
  | voiceClick
  | captionsClick
  | themeClick (name : JSString)
  | focusSettingsSaved (f b : Int)
  | startEvent
  | resultEvent (results : List SpeechResult)
  | errorEvent
  | endEvent
  | documentChanged (activeElement : Option Element)
      (chatBox chillChat chat : Option ChatSurface)
  deriving DecidableEq, Repr

/-- The effect of one event. -/
def PageEvent.apply : PageEvent → Pipeline → Pipeline
  | .voiceClick, s => voiceToTextClick s
  | .captionsClick, s => toggleCaptionsClick s
  | .themeClick name, s => HCIDesign.themeClick name s
  | .focusSettingsSaved f b, s => HCIDesign.focusSettingsSaved f b s
  | .startEvent, s => onstart s
  | .resultEvent results, s => onresult results s
  | .errorEvent, s => onerror s
  | .endEvent, s => onend s
  | .documentChanged el cb cc ch, s =>
      { s with page := { s.page with activeElement := el, chatBox := cb, chillChat := cc,
                                     chat := ch } }

/-- The effect of a list of events, oldest first. -/
def runEvents : List PageEvent → Pipeline → Pipeline
  | [], s => s
  | ev :: rest, s => runEvents rest (ev.apply s)

/-- A page with the content-editable `div` focused, an empty chat surface
`#chatBox` and a hidden, empty caption overlay. -/
def sampleEditableChatPage : Page :=
  { activeElement := some sampleEditableDiv, chatBox := some sampleChat, chillChat := none,
    chat := none, captions := some { display := "none".toList, textContent := [] } }

/-- The overlay is displayed whenever the persisted preference has captions
enabled. -/
def OverlayFollowsPreference (s : Pipeline) : Prop :=
  captionsEnabled s.storage = true → overlayDisplay s.page = "block".toList

/-! ## Timer: basic facts -/

theorem orDefault_of_pos {x d : Int} (h : 1 ≤ x) : orDefault x d = x := by
  unfold orDefault
  have : x ≠ 0 := by omega
  simp [this]

theorem phaseSeconds_load (ls : LocalStorage) (hv : StoreValid ls) (p : Phase) :
    phaseSeconds (loadFocusSettings ls) p = 60 * persistedDuration ls p := by
  unfold StoreValid at hv
  unfold phaseSeconds loadFocusSettings persistedDuration
  cases hf : ls.focus with
  | none => cases p <;> simp [orDefault]
  | some fs =>
    rw [hf] at hv
    cases p
    · simp only [orDefault_of_pos hv.1]; ring
    · simp only [orDefault_of_pos hv.2]; ring

theorem persistedDuration_pos (ls : LocalStorage) (hv : StoreValid ls) (p : Phase) :
    1 ≤ persistedDuration ls p := by
  unfold StoreValid at hv
  unfold persistedDuration
  cases hf : ls.focus with
  | none => cases p <;> simp
  | some fs =>
    rw [hf] at hv
    cases p
    · exact hv.1
    · exact hv.2

theorem ticks_add (a b : Nat) (t : Timer) : ticks (a + b) t = ticks b (ticks a t) := by
  induction a generalizing t with
  | zero => simp [ticks]
  | succ n ih =>
    have : n + 1 + b = (n + b) + 1 := by omega
    rw [this]
    simp only [ticks]
    exact ih (tick t)

theorem ticks_countdown (k : Nat) (t : Timer) (hl : 0 < t.liveIntervals)
    (hk : (k : Int) ≤ t.remainingSeconds) :
    ticks k t = { t with remainingSeconds := t.remainingSeconds - k } := by
  induction k generalizing t with
  | zero => simp [ticks]
  | succ n ih =>
    have hpos : ¬ t.remainingSeconds ≤ 0 := by push_cast at hk; omega
    have htick : tick t = { t with remainingSeconds := t.remainingSeconds - 1 } := by
      simp [tick, intervalCallback, hl, hpos]
    simp only [ticks]
    rw [htick, ih]
    · simp only [Timer.mk.injEq, true_and, and_true]
      push_cast
      ring
    · exact hl
    · show (n : Int) ≤ t.remainingSeconds - 1
      push_cast at hk
      omega

/-! ## Timer: the one-minute run (C1) -/

theorem parse_one : parseInt10 "1".toList = some 1 := by decide

theorem reconfigure_minute (t : Timer) :
    saveFocusSettingsClick "1".toList "1".toList t =
      { t with storage := saveSettings [] { t.storage with focus := some ⟨1, 1⟩ },
               currentPhase := .focus, remainingSeconds := 60 } := by
  unfold saveFocusSettingsClick
  simp only [parse_one]
  simp [parsedOrDefault, orDefault, saveFocusSettings]

theorem saveSettings_focus (s : Obj) (ls : LocalStorage) : (saveSettings s ls).focus = ls.focus := rfl

/-- Ticks 1 to 60 after the one-minute reconfiguration only count down. -/
theorem minute_ticks_le (t : Timer) (hl : 0 < t.liveIntervals) (k : Nat) (hk : k ≤ 60) :
    ticks k (saveFocusSettingsClick "1".toList "1".toList t) =
      { saveFocusSettingsClick "1".toList "1".toList t with remainingSeconds := 60 - k } := by
  rw [ticks_countdown k _ (by rw [reconfigure_minute]; exact hl)
    (by rw [reconfigure_minute]; show (k : Int) ≤ 60; omega)]
  rw [reconfigure_minute]

theorem minute_tick_61 (t : Timer) (hl : 0 < t.liveIntervals) :
    ticks 61 (saveFocusSettingsClick "1".toList "1".toList t) =
      { saveFocusSettingsClick "1".toList "1".toList t with
          currentPhase := .break, remainingSeconds := 60 } := by
  rw [show 61 = 60 + 1 from rfl, ticks_add, minute_ticks_le t hl 60 (le_refl _)]
  rw [reconfigure_minute]
  simp [ticks, tick, hl, intervalCallback, switchPhase, Phase.flip, phaseSeconds,
    loadFocusSettings, saveSettings, orDefault]

theorem minute_ticks_gt (t : Timer) (hl : 0 < t.liveIntervals) (k : Nat) (h1 : 61 ≤ k)
    (h2 : k ≤ 121) :
    ticks k (saveFocusSettingsClick "1".toList "1".toList t) =
      { saveFocusSettingsClick "1".toList "1".toList t with
          currentPhase := .break, remainingSeconds := 121 - k } := by
  obtain ⟨j, rfl⟩ : ∃ j, k = 61 + j := ⟨k - 61, by omega⟩
  rw [ticks_add, minute_tick_61 t hl]
  rw [ticks_countdown j _ (by rw [reconfigure_minute]; exact hl)
    (by show (j : Int) ≤ 60; omega)]
  simp only [Timer.mk.injEq, true_and, and_true]
  push_cast
  ring

theorem live_of_running (t : Timer) (hc : t.Consistent) (hr : t.timerRunning = true) :
    t.liveIntervals = 1 := by
  obtain ⟨h1, h2⟩ := hc
  rw [hr] at h1
  rw [← h1] at h2
  simpa using h2

theorem sampleRunning_live : 0 < sampleRunning.liveIntervals := by decide

/-- C1 (as stated, refuted): on the running sample timer reconfigured to one
minute each, tick 60 does not switch the phase: after 60 ticks the phase is
still focus with 0 seconds left, and the switch is made by tick 61. -/
theorem minute_timer_no_switch_at_tick_60 :
    ¬ switchesAt (saveFocusSettingsClick "1".toList "1".toList sampleRunning) 60 ∧
    (ticks 60 (saveFocusSettingsClick "1".toList "1".toList sampleRunning)).currentPhase
      = Phase.focus ∧
    (ticks 60 (saveFocusSettingsClick "1".toList "1".toList sampleRunning)).remainingSeconds
      = 0 ∧
    switchesAt (saveFocusSettingsClick "1".toList "1".toList sampleRunning) 61 := by
  have h59 := minute_ticks_le sampleRunning sampleRunning_live 59 (by omega)
  have h60 := minute_ticks_le sampleRunning sampleRunning_live 60 (by omega)
  have h61 := minute_tick_61 sampleRunning sampleRunning_live
  have hp := reconfigure_minute sampleRunning
  refine ⟨?_, ?_, ?_, ?_⟩
  · unfold switchesAt
    rw [show 60 - 1 = 59 from rfl, h59, h60]
    simp
  · rw [h60, hp]
  · rw [h60]; rfl
  · unfold switchesAt
    rw [show 61 - 1 = 60 from rfl, h60, h61, hp]
    simp

/-- C1 (amended): for a started timer that has just been reconfigured with
focus = 1 and break = 1, the 60th tick brings `remainingSeconds` to 0 without
switching, the first phase switch happens at the 61st tick and goes from focus
to break (with 60 seconds to run), and it is the only phase switch among ticks
1 to 121; the timer is running throughout. -/
theorem minute_timer_switches_at_tick_61 (t : Timer) (hc : t.Consistent)
    (hr : t.timerRunning = true) :
    (∀ k, 1 ≤ k → k ≤ 121 →
      (switchesAt (saveFocusSettingsClick "1".toList "1".toList t) k ↔ k = 61)) ∧
    (ticks 60 (saveFocusSettingsClick "1".toList "1".toList t)).currentPhase = Phase.focus ∧
    (ticks 60 (saveFocusSettingsClick "1".toList "1".toList t)).remainingSeconds = 0 ∧
    (ticks 61 (saveFocusSettingsClick "1".toList "1".toList t)).currentPhase = Phase.break ∧
    (ticks 61 (saveFocusSettingsClick "1".toList "1".toList t)).remainingSeconds = 60 ∧
    (∀ k, k ≤ 121 →
      (ticks k (saveFocusSettingsClick "1".toList "1".toList t)).timerRunning = true) := by
  have hl : 0 < t.liveIntervals := by rw [live_of_running t hc hr]; exact Nat.one_pos
  have hp := reconfigure_minute t
  have hle := minute_ticks_le t hl
  have hgt := minute_ticks_gt t hl
  have hphase_le : ∀ k, k ≤ 60 →
      (ticks k (saveFocusSettingsClick "1".toList "1".toList t)).currentPhase = Phase.focus := by
    intro k hk
    rw [hle k hk, hp]
  have hphase_gt : ∀ k, 61 ≤ k → k ≤ 121 →
      (ticks k (saveFocusSettingsClick "1".toList "1".toList t)).currentPhase = Phase.break := by
    intro k h1 h2
    rw [hgt k h1 h2]
  refine ⟨?_, hphase_le 60 (le_refl _), ?_, hphase_gt 61 (le_refl _) (by omega), ?_, ?_⟩
  · intro k h1 h2
    unfold switchesAt
    by_cases hk : k ≤ 60
    · rw [hphase_le k hk, hphase_le (k - 1) (by omega)]
      constructor
      · intro h; exact absurd rfl h
      · intro h; omega
    · by_cases hk2 : k = 61
      · subst hk2
        rw [hphase_gt 61 (le_refl _) (by omega), hphase_le (61 - 1) (by omega)]
        simp
      · rw [hphase_gt k (by omega) h2, hphase_gt (k - 1) (by omega) (by omega)]
        constructor
        · intro h; exact absurd rfl h
        · intro h; exact absurd h hk2
  · rw [hle 60 (le_refl _)]; rfl
  · rw [hgt 61 (le_refl _) (by omega)]; rfl
  · intro k hk
    by_cases h : k ≤ 60
    · rw [hle k h, hp]; exact hr
    · rw [hgt k (by omega) hk, hp]; exact hr

/-- The C1 theorem applied to the running sample timer. -/
theorem minute_timer_switches_at_tick_61_witness :
    sampleRunning.Consistent ∧ sampleRunning.timerRunning = true ∧
    ((∀ k, 1 ≤ k → k ≤ 121 →
      (switchesAt (saveFocusSettingsClick "1".toList "1".toList sampleRunning) k ↔ k = 61)) ∧
    (ticks 60 (saveFocusSettingsClick "1".toList "1".toList sampleRunning)).currentPhase
      = Phase.focus ∧
    (ticks 60 (saveFocusSettingsClick "1".toList "1".toList sampleRunning)).remainingSeconds
      = 0 ∧
    (ticks 61 (saveFocusSettingsClick "1".toList "1".toList sampleRunning)).currentPhase
      = Phase.break ∧
    (ticks 61 (saveFocusSettingsClick "1".toList "1".toList sampleRunning)).remainingSeconds
      = 60 ∧
    (∀ k, k ≤ 121 →
      (ticks k (saveFocusSettingsClick "1".toList "1".toList sampleRunning)).timerRunning
        = true)) :=
  ⟨by decide, by decide,
    minute_timer_switches_at_tick_61 sampleRunning (by decide) (by decide)⟩

/-! ## Timer: invariants, tick, stop and reconfigure (C2, C7, C9, C10) -/

theorem reconfigure_fields (f b : JSString) (t : Timer) :
    (saveFocusSettingsClick f b t).storage.focus =
        some ⟨max 1 (parsedOrDefault (parseInt10 f) 25), max 1 (parsedOrDefault (parseInt10 b) 5)⟩ ∧
    (saveFocusSettingsClick f b t).currentPhase = Phase.focus ∧
    (saveFocusSettingsClick f b t).remainingSeconds =
        max 1 (parsedOrDefault (parseInt10 f) 25) * 60 ∧
    (saveFocusSettingsClick f b t).timerRunning = t.timerRunning ∧
    (saveFocusSettingsClick f b t).focusTimerInterval = t.focusTimerInterval ∧
    (saveFocusSettingsClick f b t).liveIntervals = t.liveIntervals := by
  simp [saveFocusSettingsClick, saveFocusSettings, saveSettings]

theorem storeValid_of_focus {ls : LocalStorage} {F B : Int} (h : ls.focus = some ⟨F, B⟩)
    (hF : 1 ≤ F) (hB : 1 ≤ B) : StoreValid ls := by
  unfold StoreValid
  rw [h]
  exact ⟨hF, hB⟩

theorem reconfigure_storeValid (f b : JSString) (t : Timer) :
    StoreValid (saveFocusSettingsClick f b t).storage :=
  storeValid_of_focus (reconfigure_fields f b t).1 (le_max_left _ _) (le_max_left _ _)

theorem tick_of_dead (t : Timer) (h : t.liveIntervals = 0) : tick t = t := by
  simp [tick, h]

theorem stopTimer_fields (r : Option Phase) (t : Timer) :
    (stopTimer r t).storage = t.storage ∧
    (stopTimer r t).timerRunning = false ∧
    (stopTimer r t).focusTimerInterval = false ∧
    (stopTimer r t).liveIntervals =
      (if t.focusTimerInterval then t.liveIntervals - 1 else t.liveIntervals) := by
  cases r <;> simp [stopTimer]

theorem stopTimer_live (r : Option Phase) (t : Timer) (hc : t.Consistent) :
    (stopTimer r t).liveIntervals = 0 := by
  rw [(stopTimer_fields r t).2.2.2, hc.2]
  cases t.focusTimerInterval <;> simp

/-- Without a call of `start()`, a timer with no registered interval keeps
having none. -/
theorem runOps_dead (ops : List TimerOp) (t : Timer) (hops : ∀ op ∈ ops, op ≠ TimerOp.start)
    (h : t.liveIntervals = 0) : (runOps ops t).liveIntervals = 0 := by
  induction ops generalizing t with
  | nil => exact h
  | cons op rest ih =>
    simp only [runOps]
    apply ih
    · intro o ho; exact hops o (List.mem_cons_of_mem _ ho)
    · cases op with
      | start => exact absurd rfl (hops _ (List.mem_cons_self _ _))
      | tick => simp only [TimerOp.apply]; rw [tick_of_dead t h]; exact h
      | stop r =>
        simp only [TimerOp.apply]
        rw [(stopTimer_fields r t).2.2.2, h]
        cases t.focusTimerInterval <;> simp
      | reconfigure f b =>
        simp only [TimerOp.apply]
        rw [(reconfigure_fields f b t).2.2.2.2.2]; exact h

/-- The invariant kept by every operation. -/
theorem apply_invariant (op : TimerOp) (t : Timer)
    (h : t.Consistent ∧ StoreValid t.storage ∧ 0 ≤ t.remainingSeconds) :
    (op.apply t).Consistent ∧ StoreValid (op.apply t).storage ∧
      0 ≤ (op.apply t).remainingSeconds := by
  obtain ⟨hc, hv, hr⟩ := h
  cases op with
  | start =>
    simp only [TimerOp.apply, startTimer]
    by_cases hrun : t.timerRunning = true
    · simp only [hrun, if_true]; exact ⟨hc, hv, hr⟩
    · have hfalse : t.timerRunning = false := by simpa using hrun
      obtain ⟨h1, h2⟩ := hc
      rw [hfalse] at h1
      rw [← h1] at h2
      simp only [hfalse]
      refine ⟨?_, hv, hr⟩
      unfold Timer.Consistent
      simp at h2
      simp [h2]
  | tick =>
    simp only [TimerOp.apply, tick, intervalCallback]
    by_cases hl : 0 < t.liveIntervals
    · simp only [hl, if_true]
      by_cases h0 : t.remainingSeconds ≤ 0
      · simp only [h0, if_true, switchPhase]
        refine ⟨hc, hv, ?_⟩
        show 0 ≤ phaseSeconds (loadFocusSettings t.storage) t.currentPhase.flip
        rw [phaseSeconds_load _ hv]
        have := persistedDuration_pos t.storage hv t.currentPhase.flip
        omega
      · simp only [h0, if_false]
        refine ⟨hc, hv, ?_⟩
        show 0 ≤ t.remainingSeconds - 1
        omega
    · simp only [hl, if_false]; exact ⟨hc, hv, hr⟩
  | stop r =>
    simp only [TimerOp.apply]
    have hf := stopTimer_fields r t
    refine ⟨?_, ?_, ?_⟩
    · unfold Timer.Consistent
      rw [hf.2.1, hf.2.2.1, stopTimer_live r t hc]
      simp
    · rw [hf.1]; exact hv
    · cases r with
      | none => simpa [stopTimer] using hr
      | some p =>
        show 0 ≤ phaseSeconds (loadFocusSettings t.storage) p
        rw [phaseSeconds_load _ hv]
        have := persistedDuration_pos t.storage hv p
        omega
  | reconfigure f b =>
    simp only [TimerOp.apply]
    have hf := reconfigure_fields f b t
    refine ⟨?_, reconfigure_storeValid f b t, ?_⟩
    · unfold Timer.Consistent
      rw [hf.2.2.2.1, hf.2.2.2.2.1, hf.2.2.2.2.2]
      exact hc
    · rw [hf.2.2.1]
      have : (1 : Int) ≤ max 1 (parsedOrDefault (parseInt10 f) 25) := le_max_left _ _
      omega

theorem runOps_invariant (ops : List TimerOp) (t : Timer)
    (h : t.Consistent ∧ StoreValid t.storage ∧ 0 ≤ t.remainingSeconds) :
    (runOps ops t).Consistent ∧ StoreValid (runOps ops t).storage ∧
      0 ≤ (runOps ops t).remainingSeconds := by
  induction ops generalizing t with
  | nil => exact h
  | cons op rest ih => exact ih _ (apply_invariant op t h)

theorem initFocus_invariant (ls : LocalStorage) (hv : StoreValid ls) :
    (initFocus ls).Consistent ∧ StoreValid (initFocus ls).storage ∧
      0 ≤ (initFocus ls).remainingSeconds := by
  refine ⟨by simp [initFocus, Timer.Consistent], hv, ?_⟩
  have h := phaseSeconds_load ls hv Phase.focus
  have hp := persistedDuration_pos ls hv Phase.focus
  show 0 ≤ orDefault (loadFocusSettings ls).focusMinutes 25 * 60
  simp only [phaseSeconds] at h
  rw [h]
  omega

/-- C2: for a running timer (consistent handles, stored durations of at least
one minute), one tick decrements `remainingSeconds` by 1 and changes nothing
else when `remainingSeconds > 0`; when `remainingSeconds = 0` it flips the
phase and sets `remainingSeconds` to 60 times the persisted duration of the new
phase, without decrementing; in both cases the timer is still running and its
interval is still registered. -/
theorem tick_while_running (t : Timer) (hc : t.Consistent) (hv : StoreValid t.storage)
    (hr : t.timerRunning = true) :
    (0 < t.remainingSeconds →
      tick t = { t with remainingSeconds := t.remainingSeconds - 1 }) ∧
    (t.remainingSeconds = 0 →
      tick t = { t with currentPhase := t.currentPhase.flip,
                        remainingSeconds :=
                          60 * persistedDuration t.storage t.currentPhase.flip }) ∧
    Phase.focus.flip = Phase.break ∧ Phase.break.flip = Phase.focus ∧
    (tick t).timerRunning = true ∧ (tick t).liveIntervals = 1 := by
  have hl : t.liveIntervals = 1 := live_of_running t hc hr
  have hpos : 0 < t.liveIntervals := by rw [hl]; exact Nat.one_pos
  have hstep : tick t = intervalCallback t := by simp [tick, hpos]
  refine ⟨?_, ?_, rfl, rfl, ?_, ?_⟩
  · intro h
    have : ¬ t.remainingSeconds ≤ 0 := by omega
    rw [hstep]
    simp [intervalCallback, this]
  · intro h
    rw [hstep]
    simp only [intervalCallback, h, le_refl, if_true, switchPhase]
    rw [phaseSeconds_load _ hv]
  · rw [hstep]
    unfold intervalCallback
    split
    · exact hr
    · exact hr
  · rw [hstep]
    unfold intervalCallback
    split
    · exact hl
    · exact hl

/-- The C2 theorem applied to the running sample timer in its break phase. -/
theorem tick_while_running_witness :
    sampleBreak.Consistent ∧ StoreValid sampleBreak.storage ∧
    sampleBreak.timerRunning = true ∧
    ((0 < sampleBreak.remainingSeconds →
      tick sampleBreak =
        { sampleBreak with remainingSeconds := sampleBreak.remainingSeconds - 1 }) ∧
    (sampleBreak.remainingSeconds = 0 →
      tick sampleBreak =
        { sampleBreak with
            currentPhase := sampleBreak.currentPhase.flip,
            remainingSeconds :=
              60 * persistedDuration sampleBreak.storage sampleBreak.currentPhase.flip }) ∧
    Phase.focus.flip = Phase.break ∧ Phase.break.flip = Phase.focus ∧
    (tick sampleBreak).timerRunning = true ∧ (tick sampleBreak).liveIntervals = 1) :=
  ⟨by decide, by decide, by decide,
    tick_while_running sampleBreak (by decide) (by decide) (by decide)⟩

/-- C9: for a timer with consistent handles and stored durations of at least
one minute, `stop(p)` clears the interval, sets `running = false`, `phase = p`
and `remainingSeconds` to 60 times the persisted duration of `p`; `stop()`
without a reset phase clears the interval and the run flag and leaves phase and
`remainingSeconds` unchanged; after either, as long as `start()` is not called,
a tick does not change the state. -/
theorem stopTimer_spec (t : Timer) (hc : t.Consistent) (hv : StoreValid t.storage) :
    (∀ p, stopTimer (some p) t =
      { t with liveIntervals := 0, focusTimerInterval := false, timerRunning := false,
               currentPhase := p,
               remainingSeconds := 60 * persistedDuration t.storage p }) ∧
    stopTimer none t =
      { t with liveIntervals := 0, focusTimerInterval := false, timerRunning := false } ∧
    (∀ r ops, (∀ op ∈ ops, op ≠ TimerOp.start) →
      tick (runOps ops (stopTimer r t)) = runOps ops (stopTimer r t)) := by
  have hlive : (if t.focusTimerInterval = true then t.liveIntervals - 1 else t.liveIntervals)
      = 0 := by
    rw [hc.2]
    cases t.focusTimerInterval <;> simp
  refine ⟨?_, ?_, ?_⟩
  · intro p
    simp only [stopTimer, hlive]
    rw [phaseSeconds_load _ hv]
  · simp only [stopTimer, hlive]
  · intro r ops hops
    exact tick_of_dead _ (runOps_dead ops _ hops (stopTimer_live r t hc))

/-- The C9 theorem applied to the sample timer in break phase with ten seconds
left: `stop("focus")` gives phase focus and 600 seconds, and later ticks and
reconfigurations leave ticks without effect. -/
theorem stopTimer_spec_witness :
    sampleBreak.Consistent ∧ StoreValid sampleBreak.storage ∧
    (stopTimer (some Phase.focus) sampleBreak).currentPhase = Phase.focus ∧
    (stopTimer (some Phase.focus) sampleBreak).remainingSeconds = 60 * 10 ∧
    tick (runOps [TimerOp.tick, TimerOp.reconfigure "3".toList "2".toList]
        (stopTimer (some Phase.focus) sampleBreak)) =
      runOps [TimerOp.tick, TimerOp.reconfigure "3".toList "2".toList]
        (stopTimer (some Phase.focus) sampleBreak) :=
  ⟨by decide, by decide,
    by rw [(stopTimer_spec sampleBreak (by decide) (by decide)).1 Phase.focus],
    by rw [(stopTimer_spec sampleBreak (by decide) (by decide)).1 Phase.focus]; rfl,
    (stopTimer_spec sampleBreak (by decide) (by decide)).2.2 (some Phase.focus) _
      (by decide)⟩

/-- C10: `remainingSeconds` never goes negative: starting from page load with
a store that is empty or holds durations of at least one minute (as written by
a reconfiguration), after any sequence of start, tick, stop, stop with a reset
phase and reconfigure operations, `remainingSeconds >= 0`. -/
theorem remainingSeconds_nonneg (ls : LocalStorage) (hv : StoreValid ls)
    (ops : List TimerOp) : 0 ≤ (runOps ops (initFocus ls)).remainingSeconds :=
  (runOps_invariant ops _ (initFocus_invariant ls hv)).2.2

/-- The C10 theorem applied to a run from the sample store. -/
theorem remainingSeconds_nonneg_witness :
    StoreValid sampleStorage ∧
    0 ≤ (runOps [TimerOp.start, TimerOp.reconfigure "0".toList "-5".toList, TimerOp.tick,
          TimerOp.stop (some Phase.break), TimerOp.start, TimerOp.tick]
        (initFocus sampleStorage)).remainingSeconds :=
  ⟨by decide, remainingSeconds_nonneg sampleStorage (by decide) _⟩

/-- C7 (as stated, refuted): with 10 and 10 minutes persisted, reconfiguring
with the inputs `0` and `-5` does not keep 10 and 10: it persists 25 and 1. -/
theorem reconfigure_zero_neg_overwrites :
    sampleRunning.storage.focus = some ⟨10, 10⟩ ∧
    (saveFocusSettingsClick "0".toList "-5".toList sampleRunning).storage.focus
      = some ⟨25, 1⟩ ∧
    (saveFocusSettingsClick "0".toList "-5".toList sampleRunning).storage.focus
      ≠ sampleRunning.storage.focus := by
  decide

/-- C7 (amended): whatever durations were persisted before, reconfiguring with
focusMinutes = 0 and breakMinutes = -5 persists focusMinutes = 25 (the 0 is
replaced by the built-in default) and breakMinutes = 1 (the -5 is raised to the
minimum);
neither becomes 0 or negative, and the handler returns a state (no error). -/
theorem reconfigure_zero_neg (t : Timer) :
    (saveFocusSettingsClick "0".toList "-5".toList t).storage.focus = some ⟨25, 1⟩ ∧
    StoreValid (saveFocusSettingsClick "0".toList "-5".toList t).storage := by
  have h0 : parseInt10 "0".toList = some 0 := by decide
  have h5 : parseInt10 "-5".toList = some (-5) := by decide
  have hf := (reconfigure_fields "0".toList "-5".toList t).1
  rw [h0, h5] at hf
  refine ⟨?_, reconfigure_storeValid _ _ t⟩
  rw [hf]
  decide

/-! ## Timer: reconfiguration with decimal numerals (C8) -/

theorem digitChar_spec (k : Nat) (h : k < 10) :
    (Nat.digitChar k).isDigit = true ∧ (Nat.digitChar k).toNat - 48 = k := by
  interval_cases k <;> decide

theorem toDigitsCore_append (fuel n : Nat) (ds : List Char) :
    Nat.toDigitsCore 10 fuel n ds = Nat.toDigitsCore 10 fuel n [] ++ ds := by
  induction fuel generalizing n ds with
  | zero => simp [Nat.toDigitsCore]
  | succ f ih =>
    simp only [Nat.toDigitsCore]
    by_cases h : n / 10 = 0
    · simp [h]
    · simp only [h, if_false]
      rw [ih (n / 10) (Nat.digitChar (n % 10) :: ds), ih (n / 10) [Nat.digitChar (n % 10)]]
      simp

theorem digitsValue_append_single (xs : List Char) (c : Char) :
    digitsValue (xs ++ [c]) = 10 * digitsValue xs + (c.toNat - 48) := by
  simp [digitsValue, List.foldl_append]

theorem toDigitsCore_spec (fuel n : Nat) (h : n < fuel) :
    (∀ c ∈ Nat.toDigitsCore 10 fuel n [], c.isDigit = true) ∧
    digitsValue (Nat.toDigitsCore 10 fuel n []) = n ∧
    Nat.toDigitsCore 10 fuel n [] ≠ [] := by
  induction fuel generalizing n with
  | zero => omega
  | succ f ih =>
    simp only [Nat.toDigitsCore]
    by_cases hz : n / 10 = 0
    · have hn : n < 10 := by omega
      have hmod : n % 10 = n := Nat.mod_eq_of_lt hn
      have hd := digitChar_spec n hn
      simp only [hz, if_true, hmod]
      refine ⟨?_, ?_, by simp⟩
      · intro c hc
        simp only [List.mem_singleton] at hc
        rw [hc]; exact hd.1
      · simp [digitsValue, hd.2]
    · simp only [hz, if_false]
      rw [toDigitsCore_append]
      have hlt : n / 10 < f := by omega
      obtain ⟨h1, h2, _⟩ := ih (n / 10) hlt
      have hd := digitChar_spec (n % 10) (Nat.mod_lt _ (by decide))
      refine ⟨?_, ?_, by simp⟩
      · intro c hc
        rcases List.mem_append.mp hc with hc | hc
        · exact h1 c hc
        · simp only [List.mem_singleton] at hc
          rw [hc]; exact hd.1
      · rw [digitsValue_append_single, h2, hd.2]
        omega

theorem isDigit_not_space (c : Char) (h : c.isDigit = true) :
    isJSWhiteSpace c = false ∧ c ≠ '-' ∧ c ≠ '+' := by
  have hd : 48 ≤ c.toNat ∧ c.toNat ≤ 57 := by
    simp only [Char.isDigit, Bool.and_eq_true, decide_eq_true_eq] at h
    exact ⟨h.1, h.2⟩
  refine ⟨?_, ?_, ?_⟩
  · simp only [isJSWhiteSpace, Bool.or_eq_false_iff, beq_eq_false_iff_ne, ne_eq,
      Bool.and_eq_false_iff, decide_eq_false_iff_not]
    omega
  · rintro rfl
    revert hd; decide
  · rintro rfl
    revert hd; decide

/-- `parseInt` reads back the decimal numeral of a natural number. -/
theorem parseInt10_toString (n : Nat) : parseInt10 (toString n).toList = some (n : Int) := by
  have hrepr : (toString n).toList = Nat.toDigits 10 n := rfl
  rw [hrepr]
  obtain ⟨hall, hval, hne⟩ := toDigitsCore_spec (n + 1) n (Nat.lt_succ_self n)
  unfold Nat.toDigits
  generalize Nat.toDigitsCore 10 (n + 1) n [] = L at hall hval hne
  cases L with
  | nil => exact absurd rfl hne
  | cons c rest =>
    have hc := isDigit_not_space c (hall c (List.mem_cons_self _ _))
    have hdrop : List.dropWhile isJSWhiteSpace (c :: rest) = c :: rest := by
      simp [List.dropWhile, hc.1]
    have htake : List.takeWhile Char.isDigit (c :: rest) = c :: rest := by
      rw [List.takeWhile_eq_self_iff]
      exact hall
    unfold parseInt10
    simp only [hdrop]
    have hmatch : (match c :: rest with
        | '-' :: r => (true, r)
        | '+' :: r => (false, r)
        | _ => (false, c :: rest)) = (false, c :: rest) := by
      split
      · rename_i heq; injection heq with h1 _; exact absurd h1 hc.2.1
      · rename_i heq; injection heq with h1 _; exact absurd h1 hc.2.2
      · rfl
    rw [hmatch]
    simp only [htake, hval]
    simp

theorem readsSafe_bound (s : JSString) (d : Int) (hs : readsSafe s) (hd : 60 * d < exactLimit) :
    60 * max 1 (parsedOrDefault (parseInt10 s) d) < exactLimit := by
  unfold readsSafe at hs
  unfold parsedOrDefault orDefault
  have h1 : (60 : Int) * 1 < exactLimit := by decide
  cases hp : parseInt10 s with
  | none =>
    simp only []
    rcases max_choice (1 : Int) d with h | h <;> rw [h] <;> assumption
  | some n =>
    rw [hp] at hs
    simp only [] at hs ⊢
    by_cases h0 : n = 0
    · simp only [h0, if_true]
      rcases max_choice (1 : Int) d with h | h <;> rw [h] <;> assumption
    · simp only [h0, if_false]
      rcases max_choice (1 : Int) n with h | h <;> rw [h] <;> assumption

/-- C8: for every timer state (running or not) and every pair of input texts
that read as numbers of minutes whose seconds stay below 2^53 (the range in
which the numbers of the script are exact integers), reconfigure persists two
durations that are integers of at least 1, sets the phase to focus, sets
`remainingSeconds` to 60 times the persisted focus duration and leaves the run
flag (and the interval) as it was; when the inputs are the decimal numerals of
integers of at least 1, the persisted durations are those integers. -/
theorem reconfigure_spec (t : Timer) (f b : JSString) (hf : readsSafe f) (hb : readsSafe b) :
    (∃ F B : Int, (saveFocusSettingsClick f b t).storage.focus = some ⟨F, B⟩ ∧
      1 ≤ F ∧ 1 ≤ B ∧ 60 * F < exactLimit ∧ 60 * B < exactLimit) ∧
    (saveFocusSettingsClick f b t).currentPhase = Phase.focus ∧
    (saveFocusSettingsClick f b t).remainingSeconds =
      60 * persistedDuration (saveFocusSettingsClick f b t).storage Phase.focus ∧
    (saveFocusSettingsClick f b t).timerRunning = t.timerRunning ∧
    (saveFocusSettingsClick f b t).focusTimerInterval = t.focusTimerInterval ∧
    (saveFocusSettingsClick f b t).liveIntervals = t.liveIntervals ∧
    (∀ n m : Nat, 1 ≤ n → 1 ≤ m → f = (toString n).toList → b = (toString m).toList →
      (saveFocusSettingsClick f b t).storage.focus = some ⟨(n : Int), (m : Int)⟩) := by
  obtain ⟨h1, h2, h3, h4, h5, h6⟩ := reconfigure_fields f b t
  refine ⟨⟨_, _, h1, le_max_left _ _, le_max_left _ _,
    readsSafe_bound f 25 hf (by decide), readsSafe_bound b 5 hb (by decide)⟩,
    h2, ?_, h4, h5, h6, ?_⟩
  · rw [h3]
    unfold persistedDuration
    rw [h1]
    ring
  · intro n m hn hm hfn hbm
    rw [h1, hfn, hbm, parseInt10_toString, parseInt10_toString]
    have hn0 : (n : Int) ≠ 0 := by omega
    have hm0 : (m : Int) ≠ 0 := by omega
    simp only [parsedOrDefault, orDefault, hn0, hm0, if_false]
    have e1 : max (1 : Int) (n : Int) = (n : Int) := max_eq_right (by omega)
    have e2 : max (1 : Int) (m : Int) = (m : Int) := max_eq_right (by omega)
    rw [e1, e2]

/-- The C8 theorem applied to the running sample timer and the inputs `30` and
`10`. -/
theorem reconfigure_spec_witness :
    readsSafe "30".toList ∧ readsSafe "10".toList ∧
    (saveFocusSettingsClick "30".toList "10".toList sampleRunning).storage.focus
      = some ⟨30, 10⟩ ∧
    (saveFocusSettingsClick "30".toList "10".toList sampleRunning).remainingSeconds =
      60 * persistedDuration
        (saveFocusSettingsClick "30".toList "10".toList sampleRunning).storage Phase.focus ∧
    (saveFocusSettingsClick "30".toList "10".toList sampleRunning).timerRunning = true :=
  ⟨by decide, by decide,
    (reconfigure_spec sampleRunning "30".toList "10".toList (by decide) (by decide)).2.2.2.2.2.2
      30 10 (by decide) (by decide) (by decide) (by decide),
    (reconfigure_spec sampleRunning "30".toList "10".toList (by decide) (by decide)).2.2.1,
    (reconfigure_spec sampleRunning "30".toList "10".toList (by decide) (by decide)).2.2.2.1⟩

/-! ## Pipeline: result batches and text insertion (C3, C4) -/

theorem collectResults_foldl (results : List SpeechResult) (a b : JSString) :
    results.foldl
      (fun acc res =>
        if res.isFinal then (acc.1 ++ res.transcript ++ [' '], acc.2)
        else (acc.1, acc.2 ++ res.transcript ++ [' ']))
      (a, b) =
    (a ++ spaced (finalFragments results), b ++ spaced (interimFragments results)) := by
  induction results generalizing a b with
  | nil => simp [spaced, finalFragments, interimFragments]
  | cons r rest ih =>
    simp only [List.foldl_cons]
    cases hr : r.isFinal
    · simp only [Bool.false_eq_true, if_false]
      rw [ih]
      simp [spaced, finalFragments, interimFragments, hr]
    · simp only [if_true]
      rw [ih]
      simp [spaced, finalFragments, interimFragments, hr]

theorem collectResults_eq (results : List SpeechResult) :
    collectResults results =
      (spaced (finalFragments results), spaced (interimFragments results)) := by
  unfold collectResults
  rw [collectResults_foldl]
  simp

theorem insertRecognizedText_fields (text : JSString) (p : Page) :
    (insertRecognizedText text p).activeElement =
      (if targetSink p = Sink.activeInput then p.activeElement.map (insertIntoElement text)
       else p.activeElement) ∧
    (insertRecognizedText text p).chatBox =
      (if targetSink p = Sink.chatSurface then p.chatBox.map (appendEntry text)
       else p.chatBox) ∧
    (insertRecognizedText text p).chillChat =
      (if targetSink p = Sink.chatSurface ∧ p.chatBox = none then
         p.chillChat.map (appendEntry text)
       else p.chillChat) ∧
    (insertRecognizedText text p).chat =
      (if targetSink p = Sink.chatSurface ∧ p.chatBox = none ∧ p.chillChat = none then
         p.chat.map (appendEntry text)
       else p.chat) ∧
    (insertRecognizedText text p).captions =
      (if targetSink p = Sink.captionOverlay then
         some { display := "block".toList, textContent := text }
       else p.captions) := by
  obtain ⟨act, cb, cc, ch, cap⟩ := p
  unfold insertRecognizedText targetSink focusedEditable hasChatSurface
  cases act with
  | none =>
    cases cb <;> cases cc <;> cases ch <;> simp
  | some el =>
    cases he : isEditable el
    · cases cb <;> cases cc <;> cases ch <;> simp [he]
    · simp [he]

/-- The state `onresult` leaves, with the loop replaced by its result. -/
theorem onresult_eq (results : List SpeechResult) (s : Pipeline) :
    onresult results s =
      (if jsTrim (spaced (finalFragments results)) = [] then
        { s with interim := spaced (interimFragments results),
                 page := withCaptionText
                   (spaced (finalFragments results) ++ spaced (interimFragments results))
                   s.page }
      else
        { s with interim := spaced (interimFragments results),
                 page := insertRecognizedText (jsTrim (spaced (finalFragments results)))
                   (withCaptionText
                     (spaced (finalFragments results) ++ spaced (interimFragments results))
                     s.page),
                 dispatchLog :=
                   s.dispatchLog ++ [jsTrim (spaced (finalFragments results))] }) := by
  unfold onresult withCaptionText
  simp only [collectResults_eq]
  by_cases h : jsTrim (spaced (finalFragments results)) = []
  · simp [h]
  · have hne : spaced (finalFragments results) ≠ [] := by
      intro h0
      apply h
      rw [h0]
      rfl
    simp [h, hne]

theorem onresult_dispatchLog (results : List SpeechResult) (s : Pipeline) :
    (onresult results s).dispatchLog = s.dispatchLog ++ batchDispatch results := by
  rw [onresult_eq]
  unfold batchDispatch
  by_cases h : jsTrim (spaced (finalFragments results)) = []
  · simp [h]
  · simp [h]

theorem onresult_captionText (results : List SpeechResult) (s : Pipeline) :
    captionText (onresult results s) =
      (if jsTrim (spaced (finalFragments results)) ≠ [] ∧
          targetSink s.page = Sink.captionOverlay then
        jsTrim (spaced (finalFragments results))
      else spaced (finalFragments results) ++ spaced (interimFragments results)) := by
  rw [onresult_eq]
  unfold captionText
  by_cases h : jsTrim (spaced (finalFragments results)) = []
  · simp [h, withCaptionText]
  · simp only [h, if_false]
    rw [(insertRecognizedText_fields _ _).2.2.2.2]
    have ht : targetSink (withCaptionText
        (spaced (finalFragments results) ++ spaced (interimFragments results)) s.page)
        = targetSink s.page := rfl
    rw [ht]
    by_cases hs : targetSink s.page = Sink.captionOverlay
    · simp [hs, h]
    · simp [hs, withCaptionText]

/-- C3 (as stated, refuted): for the batch with final `hello` and interim
`wor`, the spec's text is `hellowor`; with nothing focused and no chat surface
the caption ends up as `hello` alone (the dispatch replaced it), and with a
focused input it is `hello wor ` (a space follows each fragment). -/
theorem caption_differs_from_spec :
    specAccumulatedFinalText sampleBatch ++ specInterimText sampleBatch = "hellowor".toList ∧
    captionText (onresult sampleBatch sampleListening) = "hello".toList ∧
    captionText (onresult sampleBatch sampleListeningFocused) = "hello wor ".toList := by
  decide

/-- C3 (amended): for every result batch, the caption text after the update
has been fully handled is `F ++ I`, where `F` is the concatenation, in order,
of the final fragments each followed by one space and `I` the same for the
interim fragments, except when the trimmed `F` is not empty and is routed to
the caption overlay (no focused editable element, no chat surface): then it is
the trimmed `F` alone. It does not depend on the interim text kept from earlier
batches nor on what the overlay showed before. -/
theorem onresult_caption (results : List SpeechResult) (s : Pipeline) :
    captionText (onresult results s) =
      (if jsTrim (spaced (finalFragments results)) ≠ [] ∧
          targetSink s.page = Sink.captionOverlay then
        jsTrim (spaced (finalFragments results))
      else spaced (finalFragments results) ++ spaced (interimFragments results)) ∧
    (∀ earlier : JSString,
      captionText (onresult results { s with interim := earlier }) =
        captionText (onresult results s)) ∧
    (∀ shown : Option Overlay,
      captionText (onresult results { s with page := { s.page with captions := shown } }) =
        captionText (onresult results s)) := by
  refine ⟨onresult_captionText results s, ?_, ?_⟩
  · intro earlier
    rw [onresult_captionText, onresult_captionText]
  · intro shown
    rw [onresult_captionText, onresult_captionText]
    rfl

/-- C4 (as stated, refuted): when the final fragment `hello` of a first batch
is still in the fragment list of the next batch, it is dispatched a second
time. -/
theorem final_fragment_dispatched_twice :
    (onresults [[{ transcript := "hello".toList, isFinal := true }], sampleBatch]
      sampleListening).dispatchLog = ["hello".toList, "hello".toList] := by
  decide

/-- C4 (amended): each batch is dispatched on its own. Handling a batch adds to
the dispatch trace exactly `batchDispatch` of that batch: its trimmed final text,
once, when that text is not empty, and nothing otherwise (in particular nothing
for a batch without final fragments); over a sequence of batches the trace grows
by the dispatches of the batches in order, each computed from that batch's
fragment list alone. -/
theorem onresults_dispatchLog (batches : List (List SpeechResult)) (s : Pipeline) :
    (onresults batches s).dispatchLog =
      s.dispatchLog ++ (batches.map batchDispatch).flatten ∧
    (∀ results, (onresult results s).dispatchLog = s.dispatchLog ++ batchDispatch results) ∧
    (∀ results, batchDispatch results = [] ∨
      (batchDispatch results = [jsTrim (spaced (finalFragments results))] ∧
        jsTrim (spaced (finalFragments results)) ≠ [])) ∧
    (∀ results, finalFragments results = [] → batchDispatch results = []) := by
  refine ⟨?_, fun results => onresult_dispatchLog results s, ?_, ?_⟩
  · induction batches generalizing s with
    | nil => simp [onresults]
    | cons b rest ih =>
      simp only [onresults]
      rw [ih, onresult_dispatchLog]
      simp
  · intro results
    unfold batchDispatch
    by_cases h : jsTrim (spaced (finalFragments results)) = []
    · left; simp [h]
    · right; simp [h]
  · intro results h
    unfold batchDispatch
    rw [h]
    rfl

/-- The routing of `insertRecognizedText`, in priority order. (1) When the
focused element is an input, a textarea or content-editable, the result is the
page with only that element rewritten by `insertIntoElement`. (2) Otherwise,
when a chat surface exists, the result is the page with only the first existing
surface changed: one `caption-entry` node holding the text is appended to it.
(3) Otherwise the result is the page with only the overlay changed: displayed
as `block`, its text replaced by the dispatched text. -/
theorem insertRecognizedText_routing (text : JSString) (p : Page) :
    match targetSink p with
    | Sink.activeInput =>
        ∃ el, p.activeElement = some el ∧
          (el.tagName = "INPUT".toList ∨ el.tagName = "TEXTAREA".toList ∨
            el.isContentEditable = true) ∧
          insertRecognizedText text p =
            { p with activeElement := some (insertIntoElement text el) }
    | Sink.chatSurface =>
        focusedEditable p = false ∧
        ((∃ el, p.chatBox = some el ∧
            insertRecognizedText text p =
              { p with
                  chatBox := some ⟨el.children ++ [⟨"caption-entry".toList, text⟩], true⟩ }) ∨
         (p.chatBox = none ∧ ∃ el, p.chillChat = some el ∧
            insertRecognizedText text p =
              { p with
                  chillChat := some ⟨el.children ++ [⟨"caption-entry".toList, text⟩], true⟩ }) ∨
         (p.chatBox = none ∧ p.chillChat = none ∧ ∃ el, p.chat = some el ∧
            insertRecognizedText text p =
              { p with
                  chat := some ⟨el.children ++ [⟨"caption-entry".toList, text⟩], true⟩ }))
    | Sink.captionOverlay =>
        focusedEditable p = false ∧ p.chatBox = none ∧ p.chillChat = none ∧ p.chat = none ∧
        insertRecognizedText text p =
          { p with
              captions := some { display := "block".toList, textContent := text } } := by
  obtain ⟨act, cb, cc, ch, cap⟩ := p
  have hedit : ∀ el : Element, isEditable el = true →
      (el.tagName = "INPUT".toList ∨ el.tagName = "TEXTAREA".toList ∨
        el.isContentEditable = true) := by
    intro el h
    simpa [isEditable, or_assoc] using h
  unfold targetSink focusedEditable hasChatSurface insertRecognizedText
  cases act with
  | none =>
    cases cb <;> cases cc <;> cases ch <;> simp [appendEntry]
  | some el =>
    cases he : isEditable el
    · cases cb <;> cases cc <;> cases ch <;> simp [appendEntry, he]
    · simp only [he, if_true]
      exact ⟨el, rfl, hedit el he, rfl⟩

/-! ## Pipeline: toggling (C6) -/

/-- C6 (the code at the failing input): two clicks on the voice button before
the start event is delivered call `start()` on the recognition object twice,
with `recognizing` still false; once the start event has been delivered, the
second click calls `stop()` instead. -/
theorem double_click_starts_twice :
    (voiceToTextClick samplePipeline).adapterCalls = [AdapterCall.start] ∧
    (voiceToTextClick samplePipeline).recognizing = false ∧
    (voiceToTextClick (voiceToTextClick samplePipeline)).adapterCalls
      = [AdapterCall.start, AdapterCall.start] ∧
    (voiceToTextClick (onstart (voiceToTextClick samplePipeline))).adapterCalls
      = [AdapterCall.start, AdapterCall.stop] := by
  decide

/-! ## Time formatting (C12) -/

theorem jsNumberToString_natCast (k : Nat) :
    jsNumberToString (k : Int) = (toString k).toList := by
  unfold jsNumberToString
  have h : ¬ ((k : Int) < 0) := by omega
  simp [h]

theorem toString_toList_small (k : Nat) (h : k < 10) :
    (toString k).toList = [Nat.digitChar k] := by
  interval_cases k <;> rfl

theorem toString_toList_length (k : Nat) (h : 10 ≤ k) : 2 ≤ (toString k).toList.length := by
  have hrepr : (toString k).toList = Nat.toDigits 10 k := rfl
  rw [hrepr]
  unfold Nat.toDigits
  simp only [Nat.toDigitsCore]
  have hz : k / 10 ≠ 0 := by omega
  simp only [hz, if_false]
  rw [toDigitsCore_append]
  have hne := (toDigitsCore_spec k (k / 10) (by omega)).2.2
  have hpos : 0 < (Nat.toDigitsCore 10 k (k / 10) []).length :=
    List.length_pos.mpr hne
  simp only [List.length_append, List.length_singleton]
  omega

theorem padStart_zeroPadded (k : Nat) :
    padStart 2 '0' (toString k).toList = zeroPadded k := by
  unfold padStart zeroPadded
  by_cases h : k < 10
  · rw [toString_toList_small k h]
    simp [h]
  · have hl := toString_toList_length k (by omega)
    have h0 : 2 - (toString k).toList.length = 0 := by omega
    rw [h0]
    simp [h]

theorem padStart_twoDigits (k : Nat) (h : k < 60) :
    padStart 2 '0' (toString k).toList = twoDigits k := by
  interval_cases k <;> rfl

theorem zeroPadded_spec (m : Nat) :
    2 ≤ (zeroPadded m).length ∧ (∀ c ∈ zeroPadded m, c.isDigit = true) ∧
      digitsValue (zeroPadded m) = m := by
  unfold zeroPadded
  by_cases h : m < 10
  · have hd := digitChar_spec m h
    simp only [h, if_true]
    refine ⟨by simp, ?_, ?_⟩
    · intro c hc
      simp only [List.mem_cons, List.mem_singleton, List.not_mem_nil, or_false] at hc
      rcases hc with rfl | rfl
      · rfl
      · exact hd.1
    · simp [digitsValue, hd.2]
  · simp only [h, if_false]
    have hrepr : (toString m).toList = Nat.toDigits 10 m := rfl
    obtain ⟨h1, h2, _⟩ := toDigitsCore_spec (m + 1) m (Nat.lt_succ_self m)
    refine ⟨toString_toList_length m (by omega), ?_, ?_⟩
    · rw [hrepr]; exact h1
    · rw [hrepr]; exact h2

theorem twoDigits_spec (k : Nat) (h : k < 60) :
    (twoDigits k).length = 2 ∧ (∀ c ∈ twoDigits k, c.isDigit = true) ∧
      digitsValue (twoDigits k) = k := by
  interval_cases k <;> decide

/-- C12: for every non-negative integer number of seconds below 2^53 (the
range in which the numbers of the script are exact integers), `formatTime`
gives the minutes `sec / 60` in decimal, left-padded with zeros to at least two
digits, then a colon, then the seconds `sec % 60` as exactly two digits: the
two parts consist of digits and read back as `sec / 60` and `sec % 60`. In
particular 0, 59, 60, 90 and 600 give `00:00`, `00:59`, `01:00`, `01:30` and
`10:00`. -/
theorem formatTime_spec (sec : Nat) (_ : (sec : Int) < exactLimit) :
    formatTime (sec : Int) = specFormatTime sec ∧
    (∃ mm ss : JSString, formatTime (sec : Int) = mm ++ [':'] ++ ss ∧
      2 ≤ mm.length ∧ ss.length = 2 ∧
      (∀ c ∈ mm, c.isDigit = true) ∧ (∀ c ∈ ss, c.isDigit = true) ∧
      digitsValue mm = sec / 60 ∧ digitsValue ss = sec % 60) ∧
    formatTime 0 = "00:00".toList ∧ formatTime 59 = "00:59".toList ∧
    formatTime 60 = "01:00".toList ∧ formatTime 90 = "01:30".toList ∧
    formatTime 600 = "10:00".toList := by
  have hspec : formatTime (sec : Int) = specFormatTime sec := by
    have hm : Int.fdiv (sec : Int) 60 = ((sec / 60 : Nat) : Int) :=
      (Int.ofNat_fdiv sec 60).symm
    have hs : Int.tmod (sec : Int) 60 = ((sec % 60 : Nat) : Int) :=
      (Int.ofNat_tmod sec 60).symm
    unfold formatTime specFormatTime
    simp only []
    rw [hm, hs, jsNumberToString_natCast,
      jsNumberToString_natCast, padStart_zeroPadded,
      padStart_twoDigits (sec % 60) (Nat.mod_lt _ (by decide))]
  refine ⟨hspec, ?_, by decide, by decide, by decide, by decide, by decide⟩
  obtain ⟨m1, m2, m3⟩ := zeroPadded_spec (sec / 60)
  obtain ⟨s1, s2, s3⟩ := twoDigits_spec (sec % 60) (Nat.mod_lt _ (by decide))
  exact ⟨zeroPadded (sec / 60), twoDigits (sec % 60), hspec, m1, s1, m2, s2, m3, s3⟩

/-- The C12 theorem applied to 3725 seconds, which are 62 minutes and 5
seconds. -/
theorem formatTime_spec_witness :
    ((3725 : Nat) : Int) < exactLimit ∧
    formatTime ((3725 : Nat) : Int) = specFormatTime 3725 ∧
    specFormatTime 3725 = "62:05".toList :=
  ⟨by decide, (formatTime_spec 3725 (by decide)).1, by decide⟩

/-! ## General settings: keys of the merged record (C14) -/

theorem mem_keys_set (o : Obj) (k : JSString) (v : JSVal) (x : JSString) :
    x ∈ (o.set k v).keys ↔ x ∈ o.keys ∨ x = k := by
  unfold Obj.set Obj.keys
  by_cases h : o.any (fun kv => kv.1 == k) = true
  · simp only [h, if_true]
    have hk : k ∈ o.map (fun kv => kv.1) := by
      simp only [List.any_eq_true, beq_iff_eq] at h
      obtain ⟨kv, hkv, hkk⟩ := h
      exact List.mem_map.mpr ⟨kv, hkv, hkk⟩
    constructor
    · intro hx
      simp only [List.map_map, List.mem_map, Function.comp] at hx
      obtain ⟨kv, hkv, hkx⟩ := hx
      by_cases he : (kv.1 == k) = true
      · right
        rw [← hkx]
        simp only [he, if_true]
      · left
        rw [← hkx]
        simp only [he]
        exact List.mem_map.mpr ⟨kv, hkv, rfl⟩
    · intro hx
      have hx' : x ∈ o.map (fun kv => kv.1) := by
        rcases hx with hx | hx
        · exact hx
        · rw [hx]; exact hk
      simp only [List.map_map, List.mem_map, Function.comp]
      obtain ⟨kv, hkv, hkx⟩ := List.mem_map.mp hx'
      refine ⟨kv, hkv, ?_⟩
      by_cases he : (kv.1 == k) = true
      · simp only [he, if_true]
        rw [← hkx]
        exact (beq_iff_eq.mp he).symm
      · simp only [he]
        exact hkx
  · simp only [h]
    simp only [List.map_append, List.map_cons, List.map_nil, List.mem_append,
      List.mem_singleton, Bool.false_eq_true, if_false]

theorem mem_keys_assign (target src : Obj) (x : JSString) :
    x ∈ (Obj.assign target src).keys ↔ x ∈ target.keys ∨ x ∈ src.keys := by
  unfold Obj.assign
  induction src generalizing target with
  | nil =>
    simp only [List.foldl_nil, Obj.keys, List.map_nil, List.not_mem_nil, or_false]
  | cons kv rest ih =>
    simp only [List.foldl_cons]
    rw [ih, mem_keys_set]
    simp only [Obj.keys, List.map_cons, List.mem_cons]
    constructor
    · rintro ((h | h) | h)
      · exact Or.inl h
      · exact Or.inr (Or.inl h)
      · exact Or.inr (Or.inr h)
    · rintro (h | h | h)
      · exact Or.inl (Or.inl h)
      · exact Or.inl (Or.inr h)
      · exact Or.inr h

theorem find_map_replace (o : Obj) (k : JSString) (v : JSVal) (x : JSString)
    (hkx : (k == x) = false) :
    (o.map (fun kv => if (kv.1 == k) = true then (k, v) else kv)).find?
      (fun kv => kv.1 == x) = o.find? (fun kv => kv.1 == x) := by
  induction o with
  | nil => rfl
  | cons kv rest ih =>
    by_cases hk : (kv.1 == k) = true
    · have hkv : (kv.1 == x) = false := by
        rw [beq_iff_eq.mp hk]; exact hkx
      simp only [List.map_cons, hk, if_true, List.find?_cons, hkx, hkv]
      exact ih
    · have hk' : (kv.1 == k) = false := by simpa using hk
      simp only [List.map_cons, hk', Bool.false_eq_true, if_false, List.find?_cons]
      cases hkv : (kv.1 == x)
      · exact ih
      · rfl

theorem find_append_other (o : Obj) (k : JSString) (v : JSVal) (x : JSString)
    (hkx : (k == x) = false) :
    (o ++ [(k, v)]).find? (fun kv => kv.1 == x) = o.find? (fun kv => kv.1 == x) := by
  induction o with
  | nil => simp only [List.nil_append, List.find?_cons, hkx, List.find?_nil]
  | cons kv rest ih =>
    simp only [List.cons_append, List.find?_cons]
    cases hkv : (kv.1 == x)
    · exact ih
    · rfl

theorem get_set_ne (o : Obj) (k : JSString) (v : JSVal) (x : JSString) (hx : x ≠ k) :
    (o.set k v).get x = o.get x := by
  have hkx : (k == x) = false := by
    simp only [beq_eq_false_iff_ne, ne_eq]
    exact fun h => hx h.symm
  unfold Obj.set Obj.get
  by_cases h : o.any (fun kv => kv.1 == k) = true
  · simp only [h, if_true, find_map_replace o k v x hkx]
  · simp only [h, Bool.false_eq_true, if_false, find_append_other o k v x hkx]

theorem get_assign_of_not_mem (target src : Obj) (x : JSString) (hx : x ∉ src.keys) :
    (Obj.assign target src).get x = target.get x := by
  unfold Obj.assign
  induction src generalizing target with
  | nil => rfl
  | cons kv rest ih =>
    simp only [Obj.keys, List.map_cons, List.mem_cons, not_or] at hx
    simp only [List.foldl_cons]
    rw [ih _ hx.2, get_set_ne _ _ _ _ hx.1]

theorem assign_nil_defaults : Obj.assign [] defaults = defaults := by decide

theorem keys_loadSettings (ls : LocalStorage) (x : JSString) :
    x ∈ (loadSettings ls).keys ↔ x ∈ defaults.keys ∨ x ∈ storedKeys ls := by
  unfold loadSettings storedKeys
  cases ls.settings with
  | absent =>
    simp only [mem_keys_assign, assign_nil_defaults]
    exact Iff.rfl
  | malformed =>
    simp only [assign_nil_defaults, Obj.keys, List.map_nil, List.not_mem_nil, or_false]
  | object o =>
    simp only [mem_keys_assign, assign_nil_defaults]

theorem keys_set_of_mem (o : Obj) (k : JSString) (v : JSVal) (h : k ∈ o.keys) :
    (o.set k v).keys = o.keys := by
  have hany : o.any (fun kv => kv.1 == k) = true := by
    simp only [List.any_eq_true, beq_iff_eq]
    obtain ⟨kv, hkv, hk⟩ := List.mem_map.mp h
    exact ⟨kv, hkv, hk⟩
  unfold Obj.set Obj.keys
  simp only [hany, if_true, List.map_map]
  apply List.map_congr_left
  intro kv _
  by_cases he : (kv.1 == k) = true
  · simp only [Function.comp, he, if_true]
    exact (beq_iff_eq.mp he).symm
  · simp only [Function.comp, he]
    rfl

theorem set_of_not_mem (o : Obj) (k : JSString) (v : JSVal) (h : k ∉ o.keys) :
    o.set k v = o ++ [(k, v)] := by
  have hany : ¬ o.any (fun kv => kv.1 == k) = true := by
    simp only [List.any_eq_true, beq_iff_eq, not_exists, not_and]
    intro kv hkv hk
    exact h (List.mem_map.mpr ⟨kv, hkv, hk⟩)
  unfold Obj.set
  simp only [hany]
  rfl

theorem nodup_keys_set (o : Obj) (k : JSString) (v : JSVal) (h : o.keys.Nodup) :
    (o.set k v).keys.Nodup := by
  by_cases hk : k ∈ o.keys
  · rw [keys_set_of_mem o k v hk]; exact h
  · rw [set_of_not_mem o k v hk]
    simp only [Obj.keys, List.map_append, List.map_cons, List.map_nil]
    rw [List.nodup_append]
    refine ⟨h, List.nodup_singleton k, ?_⟩
    intro a ha hb
    simp only [List.mem_singleton] at hb
    exact hk (hb ▸ ha)

theorem nodup_keys_assign (target src : Obj) (h : target.keys.Nodup) :
    (Obj.assign target src).keys.Nodup := by
  unfold Obj.assign
  induction src generalizing target with
  | nil => exact h
  | cons kv rest ih => exact ih _ (nodup_keys_set target kv.1 kv.2 h)

theorem assign_append_of_nodup (target src : Obj) (h : (target ++ src).keys.Nodup) :
    Obj.assign target src = target ++ src := by
  unfold Obj.assign
  induction src generalizing target with
  | nil => simp only [List.foldl_nil, List.append_nil]
  | cons kv rest ih =>
    have hk : kv.1 ∉ target.keys := by
      simp only [Obj.keys, List.map_append, List.map_cons] at h
      rw [List.nodup_append] at h
      intro hmem
      exact h.2.2 hmem (List.mem_cons_self _ _)
    simp only [List.foldl_cons]
    rw [set_of_not_mem target kv.1 kv.2 hk]
    have h' : ((target ++ [(kv.1, kv.2)]) ++ rest).keys.Nodup := by
      simpa only [List.append_assoc, List.singleton_append] using h
    rw [ih _ h']
    simp only [List.append_assoc, List.singleton_append]

theorem nodup_keys_loadSettings (ls : LocalStorage) : (loadSettings ls).keys.Nodup := by
  have hd : defaults.keys.Nodup := by decide
  unfold loadSettings
  cases ls.settings with
  | absent => exact nodup_keys_assign _ _ (by rw [assign_nil_defaults]; exact hd)
  | malformed => rw [assign_nil_defaults]; exact hd
  | object o => exact nodup_keys_assign _ _ (by rw [assign_nil_defaults]; exact hd)

theorem assign_nil_loadSettings (ls : LocalStorage) :
    Obj.assign [] (loadSettings ls) = loadSettings ls := by
  rw [assign_append_of_nodup [] (loadSettings ls) (by
    simpa only [List.nil_append] using nodup_keys_loadSettings ls)]
  rfl

theorem persistedSettings_eq (s : Obj) (ls : LocalStorage) :
    persistedSettings s ls = Obj.assign (Obj.assign [] (loadSettings ls)) s := rfl

/-- C14 (as stated, refuted): a stored record holding the extra key `legacy`
keeps it in the record `loadSettings` returns and in the record `saveSettings`
persists, and an update holding the extra key `extra` adds it to the persisted
record; neither key is a default key. -/
theorem extra_keys_survive_merge :
    "legacy".toList ∈ (loadSettings sampleLegacyStorage).keys ∧
    "legacy".toList ∈ (persistedSettings [] sampleLegacyStorage).keys ∧
    "extra".toList ∈
      (persistedSettings [("extra".toList, JSVal.bool true)] sampleStorage).keys ∧
    "legacy".toList ∉ defaults.keys ∧ "extra".toList ∉ defaults.keys := by
  decide

/-- C14 (amended): for every stored general-settings record and every update
passed to `saveSettings`, the record `loadSettings` returns holds every default
key (with the default value when the stored record lacks the key) and, besides,
every key of the stored record; the record `saveSettings` persists holds these
keys and the keys of the update, with the values of the loaded record for the
keys the update does not carry. Keys outside the default key set are kept. -/
theorem settings_merge_keys (ls : LocalStorage) (s : Obj) :
    (∀ k, k ∈ (loadSettings ls).keys ↔ k ∈ defaults.keys ∨ k ∈ storedKeys ls) ∧
    (∀ k, k ∉ storedKeys ls → (loadSettings ls).get k = defaults.get k) ∧
    (saveSettings s ls).settings = StoredItem.object (persistedSettings s ls) ∧
    (∀ k, k ∈ (persistedSettings s ls).keys ↔
      k ∈ defaults.keys ∨ k ∈ storedKeys ls ∨ k ∈ s.keys) ∧
    (∀ k, k ∉ s.keys → (persistedSettings s ls).get k = (loadSettings ls).get k) := by
  refine ⟨keys_loadSettings ls, ?_, rfl, ?_, ?_⟩
  rotate_right
  · intro k hk
    rw [persistedSettings_eq, get_assign_of_not_mem _ _ _ hk, assign_nil_loadSettings]
  · intro k hk
    unfold loadSettings
    unfold storedKeys at hk
    cases hs : ls.settings with
    | absent => simp only [assign_nil_defaults]; rfl
    | malformed => simp only [assign_nil_defaults]
    | object o =>
      rw [hs] at hk
      simp only [assign_nil_defaults]
      exact get_assign_of_not_mem defaults o k hk
  · intro k
    rw [persistedSettings_eq, mem_keys_assign, mem_keys_assign, keys_loadSettings]
    constructor
    · rintro ((h | h) | h)
      · exact absurd h (List.not_mem_nil k)
      · rcases h with h | h
        · exact Or.inl h
        · exact Or.inr (Or.inl h)
      · exact Or.inr (Or.inr h)
    · rintro (h | h | h)
      · exact Or.inl (Or.inr (Or.inl h))
      · exact Or.inl (Or.inr (Or.inr h))
      · exact Or.inr h

/-! ## Pipeline: the end event -/

/-- What `onend` does in any state: it leaves the session idle and the overlay
text empty, hides the overlay when the persisted captions-enabled preference is
false and leaves its display as it was when the preference is true; a second
end event changes nothing. -/
theorem onend_spec (s : Pipeline) :
    (onend s).recognizing = false ∧
    captionText (onend s) = [] ∧
    (onend s).storage = s.storage ∧
    overlayDisplay (onend s).page =
      (if captionsEnabled s.storage then overlayDisplay s.page else "none".toList) ∧
    overlayDisplay (onend (onstart s)).page =
      (if captionsEnabled s.storage then "block".toList else "none".toList) ∧
    onend (onend s) = onend s := by
  simp only [onend, onstart, captionText, overlayDisplay, ensureCaptionsOverlay,
    captionsEnabled]
  by_cases h : truthy ((loadSettings s.storage).get "captions".toList) = true
  · simp only [h]
    simp
  · have h' : truthy ((loadSettings s.storage).get "captions".toList) = false :=
      Bool.eq_false_iff.mpr h
    simp only [h']
    simp

/-! ## Text insertion into the focused element (C5, C13) -/

/-- For a focused input or textarea whose value is `v`, with selection bounds
`a <= b` that can be assigned, `insertIntoElement` sets the value to `v` up to
`a`, then the text, then `v` from `b`, and both bounds to `a` plus the length
of the text. -/
theorem insertIntoElement_input (el : Element) (v t : JSString) (a b : Nat)
    (htag : el.tagName = "INPUT".toList ∨ el.tagName = "TEXTAREA".toList)
    (hv : el.value = some v) (ha : el.selectionStart = some a)
    (hb : el.selectionEnd = some b) (hab : a ≤ b) (hset : el.selectionSettable = true) :
    (insertIntoElement t el).text = v.take a ++ t ++ v.drop b ∧
    (insertIntoElement t el).selectionStart = some (a + t.length) ∧
    (insertIntoElement t el).selectionEnd = some (a + t.length) := by
  have hstop : (if b = 0 then a else b) = b := by
    by_cases h0 : b = 0
    · have : a = 0 := by omega
      simp [h0, this]
    · simp [h0]
  unfold insertIntoElement Element.text
  simp only [hv, ha, hb, hset, Option.getD_some, hstop, if_true]
  simp only [htag, if_true, Option.getD_some]
  exact ⟨trivial, trivial, trivial⟩

/-- C13 (the code at the failing input): with a content-editable `div` showing
`abcdef` focused, the dispatch of `xy` is routed to the focused element, but
the text of the element stays `abcdef`: the call only assigns the properties
`value`, `selectionStart` and `selectionEnd` of the `div`. Whatever selection
bounds `a <= b` within the text one takes, the text is not `abcdef` up to `a`,
then `xy`, then `abcdef` from `b`. -/
theorem contentEditable_text_not_inserted :
    targetSink sampleEditablePage = Sink.activeInput ∧
    (insertRecognizedText "xy".toList sampleEditablePage).activeElement =
      some (insertIntoElement "xy".toList sampleEditableDiv) ∧
    (insertIntoElement "xy".toList sampleEditableDiv).text = "abcdef".toList ∧
    (insertIntoElement "xy".toList sampleEditableDiv).value = some "xy".toList ∧
    (∀ a b : Nat, a ≤ b → b ≤ 6 →
      (insertIntoElement "xy".toList sampleEditableDiv).text ≠
        "abcdef".toList.take a ++ "xy".toList ++ "abcdef".toList.drop b) := by
  refine ⟨by decide, by decide, by decide, by decide, ?_⟩
  intro a b hab hb
  have htext : (insertIntoElement "xy".toList sampleEditableDiv).text = "abcdef".toList := by
    decide
  rw [htext]
  interval_cases b <;> interval_cases a <;> decide

/-- C5 (the code at the failing input): with a content-editable `div` showing
`abcdef` focused, a chat surface `#chatBox` present and the overlay hidden, the
dispatch of `xy` produces none of the three outcomes: the text of the focused
element is still `abcdef`, no entry is appended to the chat surface, and the
overlay is neither shown nor given the text. -/
theorem contentEditable_no_outcome :
    targetSink sampleEditableChatPage = Sink.activeInput ∧
    sampleEditableChatPage.activeElement.map Element.text = some "abcdef".toList ∧
    (insertRecognizedText "xy".toList sampleEditableChatPage).activeElement.map Element.text
      = some "abcdef".toList ∧
    (insertRecognizedText "xy".toList sampleEditableChatPage).chatBox
      = sampleEditableChatPage.chatBox ∧
    (insertRecognizedText "xy".toList sampleEditableChatPage).chillChat
      = sampleEditableChatPage.chillChat ∧
    (insertRecognizedText "xy".toList sampleEditableChatPage).chat
      = sampleEditableChatPage.chat ∧
    (insertRecognizedText "xy".toList sampleEditableChatPage).captions
      = sampleEditableChatPage.captions := by
  decide

/-! ## Timer: what can lower `remainingSeconds` (C15) -/

/-- C15 (as stated, refuted): on a stopped timer with 600 seconds left a
reconfiguration to one minute lowers `remainingSeconds` to 60, and on a paused
break with 500 seconds left `stop` with the reset phase focus lowers it to
60. -/
theorem reconfigure_lowers_while_stopped :
    (initFocus sampleStorage).timerRunning = false ∧
    (initFocus sampleStorage).remainingSeconds = 600 ∧
    (saveFocusSettingsClick "1".toList "1".toList (initFocus sampleStorage)).remainingSeconds
      = 60 ∧
    samplePausedBreak.timerRunning = false ∧
    samplePausedBreak.remainingSeconds = 500 ∧
    (stopTimer (some Phase.focus) samplePausedBreak).remainingSeconds = 60 := by
  decide

/-- C15 (amended): for a timer with consistent handles and stored durations of
at least one minute, while `running = false` a tick changes nothing and
`start()` and `stop()` without a reset phase leave `remainingSeconds` unchanged;
`stop` with a reset phase and reconfigure set `remainingSeconds` to 60 times the
persisted duration of the phase they select, whatever it was before (so they
can lower it); and a tick lowers `remainingSeconds` only while `running` is
true, and then by exactly 1. -/
theorem remaining_while_stopped (t : Timer) (hc : t.Consistent)
    (hv : StoreValid t.storage) :
    (t.timerRunning = false →
      tick t = t ∧ (startTimer t).remainingSeconds = t.remainingSeconds ∧
      (stopTimer none t).remainingSeconds = t.remainingSeconds) ∧
    (∀ p, (stopTimer (some p) t).remainingSeconds = 60 * persistedDuration t.storage p) ∧
    (∀ f b, (saveFocusSettingsClick f b t).remainingSeconds =
      60 * persistedDuration (saveFocusSettingsClick f b t).storage Phase.focus) ∧
    ((tick t).remainingSeconds < t.remainingSeconds →
      t.timerRunning = true ∧ (tick t).remainingSeconds = t.remainingSeconds - 1) := by
  refine ⟨?_, ?_, ?_, ?_⟩
  · intro hr
    have hl : t.liveIntervals = 0 := by
      obtain ⟨h1, h2⟩ := hc
      rw [hr] at h1
      rw [← h1] at h2
      simpa using h2
    refine ⟨tick_of_dead t hl, ?_, ?_⟩
    · simp [startTimer, hr]
    · simp [stopTimer]
  · intro p
    show phaseSeconds (loadFocusSettings t.storage) p = _
    exact phaseSeconds_load _ hv p
  · intro f b
    obtain ⟨h1, _, h3, _⟩ := reconfigure_fields f b t
    rw [h3]
    unfold persistedDuration
    rw [h1]
    ring
  · intro hlt
    by_cases hl : 0 < t.liveIntervals
    · have hrun : t.timerRunning = true := by
        obtain ⟨h1, h2⟩ := hc
        rw [h1]
        cases hf : t.focusTimerInterval
        · rw [hf] at h2
          simp at h2
          omega
        · rfl
      have hstep : tick t = intervalCallback t := by simp [tick, hl]
      rw [hstep] at hlt ⊢
      unfold intervalCallback at hlt ⊢
      by_cases h0 : t.remainingSeconds ≤ 0
      · simp only [h0, if_true, switchPhase] at hlt
        have hpos := persistedDuration_pos t.storage hv t.currentPhase.flip
        have hps := phaseSeconds_load t.storage hv t.currentPhase.flip
        have hlt' : phaseSeconds (loadFocusSettings t.storage) t.currentPhase.flip
            < t.remainingSeconds := hlt
        omega
      · simp only [h0, if_false]
        exact ⟨hrun, trivial⟩
    · have h0 : t.liveIntervals = 0 := by omega
      rw [tick_of_dead t h0] at hlt
      exact absurd hlt (lt_irrefl _)

/-- The C15 theorem applied to the paused sample timer. -/
theorem remaining_while_stopped_witness :
    samplePausedBreak.Consistent ∧ StoreValid samplePausedBreak.storage ∧
    tick samplePausedBreak = samplePausedBreak ∧
    (startTimer samplePausedBreak).remainingSeconds = 500 ∧
    (stopTimer (some Phase.focus) samplePausedBreak).remainingSeconds = 60 * 1 :=
  ⟨by decide, by decide,
    ((remaining_while_stopped samplePausedBreak (by decide) (by decide)).1 (by decide)).1,
    ((remaining_while_stopped samplePausedBreak (by decide) (by decide)).1 (by decide)).2.1,
    (remaining_while_stopped samplePausedBreak (by decide) (by decide)).2.1 Phase.focus⟩

/-! ## Pipeline: the overlay follows the preference in every run (C11) -/

theorem find_map_replace_self (o : Obj) (k : JSString) (v : JSVal)
    (h : o.any (fun kv => kv.1 == k) = true) :
    (o.map (fun kv => if (kv.1 == k) = true then (k, v) else kv)).find?
      (fun kv => kv.1 == k) = some (k, v) := by
  induction o with
  | nil => exact absurd h (by simp only [List.any_nil, Bool.false_eq_true, not_false_eq_true])
  | cons kv rest ih =>
    by_cases hk : (kv.1 == k) = true
    · simp only [List.map_cons, hk, if_true, List.find?_cons, beq_self_eq_true]
    · have hk' : (kv.1 == k) = false := by simpa using hk
      simp only [List.any_cons, hk', Bool.false_or] at h
      simp only [List.map_cons, hk', Bool.false_eq_true, if_false, List.find?_cons]
      exact ih h

theorem find_append_self (o : Obj) (k : JSString) (v : JSVal)
    (h : ¬ o.any (fun kv => kv.1 == k) = true) :
    (o ++ [(k, v)]).find? (fun kv => kv.1 == k) = some (k, v) := by
  induction o with
  | nil => simp only [List.nil_append, List.find?_cons, beq_self_eq_true]
  | cons kv rest ih =>
    have hk' : (kv.1 == k) = false := by
      cases hkv : (kv.1 == k)
      · rfl
      · exact absurd (by simp only [List.any_cons, hkv, Bool.true_or]) h
    have hrest : ¬ rest.any (fun kv => kv.1 == k) = true := by
      intro hr
      exact h (by simp only [List.any_cons, hr, Bool.or_true])
    simp only [List.cons_append, List.find?_cons, hk']
    exact ih hrest

theorem get_set_eq (o : Obj) (k : JSString) (v : JSVal) : (o.set k v).get k = some v := by
  unfold Obj.set Obj.get
  by_cases h : o.any (fun kv => kv.1 == k) = true
  · simp only [h, if_true, find_map_replace_self o k v h, Option.map_some']
  · simp only [h, Bool.false_eq_true, if_false, find_append_self o k v h, Option.map_some']

theorem get_isSome_of_mem (o : Obj) (k : JSString) (h : k ∈ o.keys) :
    ∃ v, o.get k = some v := by
  unfold Obj.get
  induction o with
  | nil => exact absurd h (List.not_mem_nil k)
  | cons kv rest ih =>
    simp only [List.find?_cons]
    cases hkv : (kv.1 == k)
    · simp only [Obj.keys, List.map_cons, List.mem_cons] at h
      rcases h with h | h
      · exact absurd (beq_iff_eq.mpr h.symm) (by rw [hkv]; decide)
      · exact ih h
    · exact ⟨kv.2, rfl⟩

theorem get_cons_ne (kv : JSString × JSVal) (rest : Obj) (k : JSString)
    (h : (kv.1 == k) = false) : Obj.get (kv :: rest) k = Obj.get rest k := by
  unfold Obj.get
  simp only [List.find?_cons, h]

theorem get_cons_eq (kv : JSString × JSVal) (rest : Obj) (k : JSString)
    (h : (kv.1 == k) = true) : Obj.get (kv :: rest) k = some kv.2 := by
  unfold Obj.get
  simp only [List.find?_cons, h, Option.map_some']

theorem get_assign_of_get (target src : Obj) (k : JSString) (v : JSVal)
    (hn : src.keys.Nodup) (hg : src.get k = some v) :
    (Obj.assign target src).get k = some v := by
  induction src generalizing target with
  | nil => exact absurd hg (by simp [Obj.get])
  | cons kv rest ih =>
    have hn' : kv.1 ∉ Obj.keys rest ∧ (Obj.keys rest).Nodup := by
      simpa only [Obj.keys, List.map_cons, List.nodup_cons] using hn
    have hstep : Obj.assign target (kv :: rest) = Obj.assign (target.set kv.1 kv.2) rest := rfl
    rw [hstep]
    cases hkv : (kv.1 == k)
    · rw [get_cons_ne kv rest k hkv] at hg
      exact ih _ hn'.2 hg
    · rw [get_cons_eq kv rest k hkv] at hg
      have hk : kv.1 = k := beq_iff_eq.mp hkv
      have hnot : k ∉ Obj.keys rest := hk ▸ hn'.1
      rw [get_assign_of_not_mem _ _ _ hnot, ← hk, get_set_eq]
      exact hg

theorem loadSettings_saveSettings_get (upd : Obj) (ls : LocalStorage) (k : JSString)
    (v : JSVal) (h : (persistedSettings upd ls).get k = some v) :
    (loadSettings (saveSettings upd ls)).get k = some v := by
  have hn : (persistedSettings upd ls).keys.Nodup := by
    rw [persistedSettings_eq]
    exact nodup_keys_assign _ _ (by
      rw [assign_nil_loadSettings]; exact nodup_keys_loadSettings ls)
  have hload : loadSettings (saveSettings upd ls) =
      Obj.assign (Obj.assign [] defaults) (persistedSettings upd ls) := rfl
  rw [hload]
  exact get_assign_of_get _ _ k v hn h

theorem captions_mem_defaults : "captions".toList ∈ defaults.keys := by decide

theorem captionsEnabled_saveSettings_other (upd : Obj) (ls : LocalStorage)
    (h : "captions".toList ∉ upd.keys) :
    captionsEnabled (saveSettings upd ls) = captionsEnabled ls := by
  have hmem : "captions".toList ∈ (loadSettings ls).keys :=
    (keys_loadSettings ls _).mpr (Or.inl captions_mem_defaults)
  obtain ⟨v, hv⟩ := get_isSome_of_mem _ _ hmem
  have hp : (persistedSettings upd ls).get "captions".toList = some v := by
    rw [persistedSettings_eq, get_assign_of_not_mem _ _ _ h, assign_nil_loadSettings]
    exact hv
  unfold captionsEnabled
  rw [loadSettings_saveSettings_get upd ls _ v hp, hv]

theorem captionsEnabled_saveSettings_captions (b : Bool) (ls : LocalStorage) :
    captionsEnabled (saveSettings [("captions".toList, JSVal.bool b)] ls) = b := by
  have hp : (persistedSettings [("captions".toList, JSVal.bool b)] ls).get "captions".toList
      = some (JSVal.bool b) := by
    rw [persistedSettings_eq]
    exact get_set_eq _ _ _
  unfold captionsEnabled
  rw [loadSettings_saveSettings_get _ ls _ _ hp]
  rfl

theorem captionsEnabled_saveFocusSettings (u : FocusUpdate) (ls : LocalStorage) :
    captionsEnabled (saveFocusSettings u ls) = captionsEnabled ls := rfl

theorem overlayDisplay_showCaptions (b : Bool) (p : Page) :
    overlayDisplay (showCaptions b p) = (if b then "block".toList else "none".toList) := by
  cases b <;> rfl

theorem overlayDisplay_withCaptionText (text : JSString) (p : Page) :
    overlayDisplay (withCaptionText text p) = overlayDisplay p := rfl

theorem overlayDisplay_insertRecognizedText (text : JSString) (p : Page) :
    overlayDisplay (insertRecognizedText text p) = "block".toList ∨
      overlayDisplay (insertRecognizedText text p) = overlayDisplay p := by
  have h := (insertRecognizedText_fields text p).2.2.2.2
  unfold overlayDisplay ensureCaptionsOverlay
  rw [h]
  by_cases hs : targetSink p = Sink.captionOverlay
  · left; simp only [hs, if_true]
  · right; simp only [hs, if_false]

theorem onresult_storage_display (results : List SpeechResult) (s : Pipeline) :
    (onresult results s).storage = s.storage ∧
    (overlayDisplay (onresult results s).page = "block".toList ∨
      overlayDisplay (onresult results s).page = overlayDisplay s.page) := by
  constructor
  · rw [onresult_eq]
    split <;> rfl
  · rw [onresult_eq]
    by_cases h : jsTrim (spaced (finalFragments results)) = []
    · rw [if_pos h]
      exact Or.inr rfl
    · rw [if_neg h]
      rcases overlayDisplay_insertRecognizedText (jsTrim (spaced (finalFragments results)))
        (withCaptionText
          (spaced (finalFragments results) ++ spaced (interimFragments results)) s.page)
        with h1 | h1
      · exact Or.inl h1
      · exact Or.inr (h1.trans (overlayDisplay_withCaptionText _ _))

theorem captions_not_mem_theme (name : JSString) :
    "captions".toList ∉ Obj.keys [("theme".toList, JSVal.str name)] := by
  intro hmem
  simp only [Obj.keys, List.map_cons, List.map_nil, List.mem_singleton] at hmem
  exact absurd hmem (by decide)

theorem captions_not_mem_nil : "captions".toList ∉ Obj.keys [] := by
  intro hmem
  exact absurd hmem (List.not_mem_nil _)

theorem voiceToTextClick_storage_display (s : Pipeline) :
    (voiceToTextClick s).storage = s.storage ∧
    overlayDisplay (voiceToTextClick s).page = overlayDisplay s.page := by
  unfold voiceToTextClick startRecognition stopRecognition
  cases s.recognizing <;> cases s.recognition <;> cases s.speechSupported <;>
    exact ⟨rfl, rfl⟩

/-- Every event keeps the overlay displayed while captions are enabled. -/
theorem apply_overlayFollowsPreference (ev : PageEvent) (s : Pipeline)
    (h : OverlayFollowsPreference s) : OverlayFollowsPreference (ev.apply s) := by
  unfold OverlayFollowsPreference at h ⊢
  cases ev with
  | voiceClick =>
    simp only [PageEvent.apply]
    obtain ⟨h1, h2⟩ := voiceToTextClick_storage_display s
    rw [h1, h2]; exact h
  | captionsClick =>
    simp only [PageEvent.apply, toggleCaptionsClick]
    intro he
    rw [captionsEnabled_saveSettings_captions] at he
    rw [overlayDisplay_showCaptions, he]
    rfl
  | themeClick name =>
    simp only [PageEvent.apply, themeClick]
    rw [captionsEnabled_saveSettings_other _ _ (captions_not_mem_theme name)]
    exact h
  | focusSettingsSaved f b =>
    simp only [PageEvent.apply, focusSettingsSaved]
    rw [captionsEnabled_saveSettings_other _ _ captions_not_mem_nil,
      captionsEnabled_saveFocusSettings]
    exact h
  | startEvent =>
    intro _
    rfl
  | resultEvent results =>
    simp only [PageEvent.apply]
    obtain ⟨h1, h2⟩ := onresult_storage_display results s
    rw [h1]
    intro he
    rcases h2 with h2 | h2
    · exact h2
    · rw [h2]; exact h he
  | errorEvent => exact h
  | endEvent =>
    simp only [PageEvent.apply]
    obtain ⟨_, _, h3, h4, _, _⟩ := onend_spec s
    rw [h3, h4]
    intro he
    rw [he]
    exact h he
  | documentChanged el cb cc ch => exact h

theorem runEvents_overlayFollowsPreference (events : List PageEvent) (s : Pipeline)
    (h : OverlayFollowsPreference s) : OverlayFollowsPreference (runEvents events s) := by
  induction events generalizing s with
  | nil => exact h
  | cons ev rest ih => exact ih _ (apply_overlayFollowsPreference ev s h)

theorem pageLoad_overlayFollowsPreference (ls : LocalStorage) (p : Page)
    (speechSupported : Bool) : OverlayFollowsPreference (pageLoad ls p speechSupported) := by
  unfold OverlayFollowsPreference pageLoad
  intro he
  simp only [] at he ⊢
  rw [overlayDisplay_showCaptions, he]
  rfl

/-- C11: in every pipeline state, that is, after page load followed by any
sequence of button clicks, recognition events and changes of the rest of the
document, handling the end event leaves the session idle (`recognizing = false`)
and the overlay text empty, and the overlay is displayed (`block`) exactly when
the persisted captions-enabled preference is true and hidden (`none`) when it is
false; handling a second end event in the resulting state changes nothing. -/
theorem onend_after_any_run (ls : LocalStorage) (p : Page) (speechSupported : Bool)
    (events : List PageEvent) :
    (onend (runEvents events (pageLoad ls p speechSupported))).recognizing = false ∧
    captionText (onend (runEvents events (pageLoad ls p speechSupported))) = [] ∧
    overlayDisplay (onend (runEvents events (pageLoad ls p speechSupported))).page =
      (if captionsEnabled (onend (runEvents events (pageLoad ls p speechSupported))).storage
       then "block".toList else "none".toList) ∧
    onend (onend (runEvents events (pageLoad ls p speechSupported))) =
      onend (runEvents events (pageLoad ls p speechSupported)) := by
  have hinv := runEvents_overlayFollowsPreference events _
    (pageLoad_overlayFollowsPreference ls p speechSupported)
  obtain ⟨h1, h2, h3, h4, _, h6⟩ := onend_spec (runEvents events (pageLoad ls p speechSupported))
  refine ⟨h1, h2, ?_, h6⟩
  rw [h3, h4]
  by_cases he : captionsEnabled (runEvents events (pageLoad ls p speechSupported)).storage = true
  · simp only [he, if_true]
    exact hinv he
  · simp only [he, Bool.false_eq_true, if_false]

end HCIDesign
